import Mathlib

/-!
Verification development for the metadata normalization and re-encoding engine
of the Ultimate-Photo-Metadata-Manipulator repository.

The Python source is shallowly embedded:

* `src/src/metadata_handler.py` `MetadataHandler._normalize_value` and
  `_normalize_metadata_dict` are embedded as `normalizeValueE` /
  `normalizeMetadataDictE` over the `RawValue` mutual inductive, which mirrors
  the Python runtime shapes the code inspects with `isinstance` (int, float,
  str, bytes, list/tuple, dict).  The embedding returns `Except`: the dict
  comprehension in `_normalize_value` uses the normalized key as a dict key
  without a hashability guard, so a key normalizing to a list or dict raises
  `TypeError`, and dict construction itself follows Python insertion
  semantics (`pyDictSet`: an `==`-equal key overwrites the stored value while
  keeping the first-inserted key object).  `normalizeValue` is the same
  function restricted to the successful, dict-free paths; `agreeV` proves the
  two agree there.  Python `float` results are modelled as exact
  rationals (`ℚ`); every divergence we exhibit between code and spec is far
  larger than IEEE-754 double rounding error, so the rational model separates
  the two sides faithfully.
* The EXIF encode phase of `MetadataHandler.edit_metadata` (purge of
  non-camera tags plus field mapping) is embedded as `purgeNonCamera` /
  `encodeExifPhase` over `IfdMap`.
* The XMP packet builder inside `edit_metadata` is embedded as `xmpEncode`;
  a Python exception escaping the builder is modelled with `Except`.
* The XMP decoders (`parse_xmp_xml` in `scripts/metadata_viewer.py`, and the
  fallback packet parse in `MetadataHandler._read_xmp`) are embedded as
  `parseXmpXml` / `handlerParseXmp`.  The external XML parser the code calls
  (`xml.etree.ElementTree.fromstring`, Python standard library — an external
  collaborator of the repository) is modelled by `xmlFromString`, a genuine
  recursive-descent parser with namespace resolution covering the XML subset
  the engine reads and writes.
* `edit_metadata`'s top-level control flow (return value and `last_error`
  bookkeeping) is embedded as `editMetadata`, with the two write phases
  abstracted as `Except` outcomes since they are filesystem effects.

Byte-decoding helpers (`utf8Decode`, `utf16leDecode`, `utf16beDecode`,
`latin1Decode`) model Python's strict `bytes.decode` for the corresponding
codecs; `pyStrip` models `str.strip()` on ASCII whitespace.
-/

namespace PhotoMeta

/-! ### Character and string helpers -/

/-- Left brace character, kept as a named constant. -/
def lbrace : Char := Char.ofNat 123

/-- Right brace character, kept as a named constant. -/
def rbrace : Char := Char.ofNat 125

/-- ASCII whitespace, modelling the characters `str.strip()` removes for the
ASCII strings this engine manipulates. -/
def pyIsSpace (c : Char) : Bool :=
  c = ' ' || c = '\t' || c = '\n' || c = '\r' || c = Char.ofNat 11 || c = Char.ofNat 12

/-- Python `str.strip()`: drop leading and trailing whitespace. -/
def pyStripChars (cs : List Char) : List Char :=
  (((cs.dropWhile pyIsSpace).reverse).dropWhile pyIsSpace).reverse

/-- Python `str.strip()` on `String`. -/
def pyStrip (s : String) : String := String.mk (pyStripChars s.data)

/-- Python `s.rstrip('\x00')`: drop trailing NUL characters. -/
def rstripNulls (cs : List Char) : List Char :=
  ((cs.reverse).dropWhile (fun c => c = Char.ofNat 0)).reverse

/-- One character is a C0/DEL control character in the class the code removes
with `re.sub(r"[\x00-\x08\x0b-\x1f\x7f]+", "", s)`: NUL through BS, VT through
US, and DEL.  TAB (9) and LF (10) survive. -/
def isStrippedCtrl (c : Char) : Bool :=
  c.toNat ≤ 8 || (11 ≤ c.toNat && c.toNat ≤ 31) || c.toNat = 127

/-- Remove every control character of the stripped class. -/
def removeCtrl (cs : List Char) : List Char := cs.filter (fun c => !isStrippedCtrl c)

/-- Post-processing both byte-decoding branches apply to a decoded string:
`s.rstrip('\x00')` followed by the control-character `re.sub`. -/
def cleanDecoded (cs : List Char) : String := String.mk (removeCtrl (rstripNulls cs))

/-- Split a character list at every delimiter character satisfying `p`,
producing the (possibly empty) chunks between delimiters.  Modulo empty chunks
— which every caller filters out — this is Python `re.split` on a class of
delimiter characters. -/
def splitChars (p : Char → Bool) : List Char → List (List Char)
  | [] => [[]]
  | c :: rest =>
    let r := splitChars p rest
    if p c then [] :: r
    else match r with
      | [] => [[c]]
      | chunk :: more => (c :: chunk) :: more

/-- Python `[p.strip() for p in re.split(r"[;,\x00]+", s) if p.strip()]`:
split on `;`, `,` and NUL, strip each part, drop empties.  (The regex merges
delimiter runs; the merged runs only contribute empty parts, which the filter
drops, so splitting on single delimiters is equivalent.) -/
def splitParts (cs : List Char) : List String :=
  ((splitChars (fun c => c = ';' || c = ',' || c = Char.ofNat 0) cs).map
    (fun chunk => String.mk (pyStripChars chunk))).filter (fun s => s ≠ "")

/-- Python `[p.strip() for p in re.split('[,;]', s) if p.strip()]`, used by the
XMP encoder for delimited `creator`/`subject` strings. -/
def splitItems (s : String) : List String :=
  ((splitChars (fun c => c = ',' || c = ';') s.data).map
    (fun chunk => String.mk (pyStripChars chunk))).filter (fun t => t ≠ "")

/-- Python `k.split('}', 1)[1] if '}' in k else k`: the content after the
first right brace, or the string itself when it has none. -/
def afterFirstRBrace (s : String) : String :=
  if s.data.contains rbrace then
    String.mk ((s.data.dropWhile (fun c => c ≠ rbrace)).drop 1)
  else s

/-! ### Strict byte decoders (models of Python `bytes.decode(enc)`)

Each returns `none` exactly when Python's strict decoder raises
`UnicodeDecodeError`. -/

/-- Is `b` a UTF-8 continuation byte `0x80..0xBF`? -/
def isCont (b : Nat) : Bool := 128 ≤ b && b ≤ 191

/-- Accumulate a continuation byte onto a partial code point. -/
def contVal (acc b : Nat) : Nat := acc * 64 + (b - 128)

/-- Strict UTF-8 decoding: rejects overlong forms, surrogates and values above
`U+10FFFF`, as CPython's `bytes.decode('utf-8')` does. -/
def utf8Decode : List Nat → Option (List Char)
  | [] => some []
  | b :: rest =>
    if b ≤ 127 then
      (utf8Decode rest).map (fun cs => Char.ofNat b :: cs)
    else if 194 ≤ b && b ≤ 223 then
      match rest with
      | b2 :: r2 =>
        if isCont b2 then
          (utf8Decode r2).map (fun cs => Char.ofNat (contVal (b - 192) b2) :: cs)
        else none
      | [] => none
    else if 224 ≤ b && b ≤ 239 then
      match rest with
      | b2 :: b3 :: r2 =>
        let lo2 : Nat := if b = 224 then 160 else 128
        let hi2 : Nat := if b = 237 then 159 else 191
        if (lo2 ≤ b2 && b2 ≤ hi2) && isCont b3 then
          (utf8Decode r2).map
            (fun cs => Char.ofNat (contVal (contVal (b - 224) b2) b3) :: cs)
        else none
      | _ => none
    else if 240 ≤ b && b ≤ 244 then
      match rest with
      | b2 :: b3 :: b4 :: r2 =>
        let lo2 : Nat := if b = 240 then 144 else 128
        let hi2 : Nat := if b = 244 then 143 else 191
        if (lo2 ≤ b2 && b2 ≤ hi2) && isCont b3 && isCont b4 then
          (utf8Decode r2).map
            (fun cs => Char.ofNat (contVal (contVal (contVal (b - 240) b2) b3) b4) :: cs)
        else none
      | _ => none
    else none

/-- Strict UTF-16 decoding over a list of 16-bit code units: pairs surrogates,
rejects unpaired ones. -/
def utf16Units : List Nat → Option (List Char)
  | [] => some []
  | u :: rest =>
    if 55296 ≤ u && u ≤ 56319 then
      match rest with
      | v :: r2 =>
        if 56320 ≤ v && v ≤ 57343 then
          (utf16Units r2).map
            (fun cs => Char.ofNat (65536 + (u - 55296) * 1024 + (v - 56320)) :: cs)
        else none
      | [] => none
    else if 56320 ≤ u && u ≤ 57343 then none
    else
      (utf16Units rest).map (fun cs => Char.ofNat u :: cs)

/-- Group bytes into little-endian 16-bit units; `none` on odd length
(Python: "truncated data"). -/
def leUnits : List Nat → Option (List Nat)
  | [] => some []
  | [_] => none
  | b1 :: b2 :: rest => (leUnits rest).map (fun us => (b1 + 256 * b2) :: us)

/-- Group bytes into big-endian 16-bit units; `none` on odd length. -/
def beUnits : List Nat → Option (List Nat)
  | [] => some []
  | [_] => none
  | b1 :: b2 :: rest => (beUnits rest).map (fun us => (256 * b1 + b2) :: us)

/-- Strict `bytes.decode('utf-16le')`. -/
def utf16leDecode (bs : List Nat) : Option (List Char) :=
  (leUnits bs).bind utf16Units

/-- Strict `bytes.decode('utf-16be')`. -/
def utf16beDecode (bs : List Nat) : Option (List Char) :=
  (beUnits bs).bind utf16Units

/-- `bytes.decode('latin-1')` — total: every byte maps to the code point of
the same value. -/
def latin1Decode (bs : List Nat) : List Char := bs.map Char.ofNat

/-! ### Byte encoders (models of Python `str.encode(enc)`) -/

/-- UTF-8 encode one character. -/
def utf8EncodeChar (c : Char) : List Nat :=
  let n := c.toNat
  if n ≤ 127 then [n]
  else if n ≤ 2047 then [192 + n / 64, 128 + n % 64]
  else if n ≤ 65535 then [224 + n / 4096, 128 + (n / 64) % 64, 128 + n % 64]
  else [240 + n / 262144, 128 + (n / 4096) % 64, 128 + (n / 64) % 64, 128 + n % 64]

/-- Python `s.encode('utf-8')`. -/
def utf8Encode (s : String) : List Nat := s.data.flatMap utf8EncodeChar

/-- UTF-16LE encode one character (surrogate pair above the BMP). -/
def utf16leEncodeChar (c : Char) : List Nat :=
  let n := c.toNat
  if n ≤ 65535 then [n % 256, n / 256]
  else
    let m := n - 65536
    let hi := 55296 + m / 1024
    let lo := 56320 + m % 1024
    [hi % 256, hi / 256, lo % 256, lo / 256]

/-- Python `s.encode('utf-16le')`. -/
def utf16leEncode (s : String) : List Nat := s.data.flatMap utf16leEncodeChar

/-! ### Raw metadata values

`RawValue` mirrors the Python runtime shapes `_normalize_value` distinguishes
with `isinstance`: `int`, `float`, `str`, `bytes`/`bytearray`, `list`/`tuple`
and `dict`.  Python `bool` (a subclass of `int`) and exotic key types are not
modelled.  Lists and dicts are separate mutual inductives so that structural
recursion and induction stay elementary. -/

mutual
inductive RawValue where
  | int : Int → RawValue
  | float : Rat → RawValue
  | str : String → RawValue
  | bytes : List Nat → RawValue
  | list : RVList → RawValue
  | dict : RVDict → RawValue
inductive RVList where
  | nil : RVList
  | cons : RawValue → RVList → RVList
inductive RVDict where
  | dnil : RVDict
  | dcons : RawValue → RawValue → RVDict → RVDict
end

/-- Length of an embedded Python list. -/
def rvLen : RVList → Nat
  | .nil => 0
  | .cons _ t => rvLen t + 1

/-- Map a function over an embedded Python list. -/
def rvMap (f : RawValue → RawValue) : RVList → RVList
  | .nil => .nil
  | .cons v t => .cons (f v) (rvMap f t)

/-- Does every element satisfy `p`?  (Python `all(...)`.) -/
def rvAll (p : RawValue → Bool) : RVList → Bool
  | .nil => true
  | .cons v t => p v && rvAll p t

/-- Python `isinstance(x, int)` (bools excluded from the model). -/
def rvIsInt : RawValue → Bool
  | .int _ => true
  | _ => false

/-- Python `isinstance(x, int) and 0 <= x <= 255`. -/
def rvIsByte : RawValue → Bool
  | .int n => 0 ≤ n && n ≤ 255
  | _ => false

/-- Rule-3 shape test: `len(v) == 2 and all(isinstance(x, int) for x in v)` —
a single rational `(num, den)` pair. -/
def isPair2 : RVList → Bool
  | .cons (.int _) (.cons (.int _) .nil) => true
  | _ => false

/-- A list element that is itself a two-integer pair:
`isinstance(x, (list, tuple)) and len(x) == 2 and all(isinstance(n, int) for n in x)`. -/
def rvIsPairElem : RawValue → Bool
  | .list ys => isPair2 ys
  | _ => false

/-- Rule-4 shape test: non-empty and every element an integer in `[0, 255]`. -/
def isByteArr (xs : RVList) : Bool := !(rvLen xs = 0 : Bool) && rvAll rvIsByte xs

/-- Rule-5 shape test: non-empty and every element a two-integer pair. -/
def isPairArr (xs : RVList) : Bool := !(rvLen xs = 0 : Bool) && rvAll rvIsPairElem xs

/-- Extract the byte values of a rule-4 shaped list (Python `bytes(v)`). -/
def rvToBytes : RVList → List Nat
  | .nil => []
  | .cons (.int n) t => n.toNat :: rvToBytes t
  | .cons _ t => rvToBytes t

/-- Python `round(x, 8)` on the rational model of a float: round to a multiple
of `10⁻⁸`, ties to even (banker's rounding). -/
def pyRound8 (q : ℚ) : ℚ :=
  let scaled : ℚ := q * 100000000
  let fl : Int := ⌊scaled⌋
  let r : Int :=
    if scaled - fl > 1/2 then fl + 1
    else if scaled - fl < 1/2 then fl
    else if fl % 2 = 0 then fl else fl + 1
  (r : ℚ) / 100000000

/-- Rule 3, the single rational pair: `round(num / den if den else 0, 8)`.
When `den` is zero the rounded value is the Python `int` `0` (Python
`round(int, ndigits)` returns an `int`); otherwise a float. -/
def pairValue : RVList → RawValue
  | .cons (.int n) (.cons (.int d) .nil) =>
      if d = 0 then .int 0 else .float (pyRound8 ((n : ℚ) / (d : ℚ)))
  | xs => .list xs

/-- One step of the rule-5 loop: `floats.append(num / den if den else 0)`.
With a zero denominator Python appends the `int` `0`, otherwise a `float` —
the distinction is preserved because later shape tests depend on it. -/
def pairToFloat : RawValue → RawValue
  | .list (.cons (.int n) (.cons (.int d) .nil)) =>
      if d = 0 then .int 0 else .float ((n : ℚ) / (d : ℚ))
  | v => v

/-- Numeric value of an embedded Python number (used by the DMS collapse,
where Python's `+` and `/` coerce `int` to `float`). -/
def toQ : RawValue → ℚ
  | .int n => (n : ℚ)
  | .float q => q
  | _ => 0

/-- Rule 5 on a rational-pair array: convert every pair, then collapse three
components as GPS degrees/minutes/seconds `deg + min/60 + sec/3600`
(no per-component rounding), otherwise keep the list of quotients. -/
def ratArrayValue (xs : RVList) : RawValue :=
  let fs := rvMap pairToFloat xs
  match fs with
  | .cons a (.cons b (.cons c .nil)) => .float (toQ a + toQ b / 60 + toQ c / 3600)
  | _ => .list fs

/-- Rule 1, the `bytes` branch: try UTF-8, UTF-16LE, UTF-16BE, Latin-1 in that
order, and clean the first successful decode.  Latin-1 is total, so the
hex-summary fallback in the source is unreachable and the branch always
produces a string. -/
def bytesValue (bs : List Nat) : String :=
  match utf8Decode bs with
  | some cs => cleanDecoded cs
  | none =>
    match utf16leDecode bs with
    | some cs => cleanDecoded cs
    | none =>
      match utf16beDecode bs with
      | some cs => cleanDecoded cs
      | none => cleanDecoded (latin1Decode bs)

/-- Build an embedded Python list of strings. -/
def strsRVL : List String → RVList
  | [] => .nil
  | p :: rest => .cons (.str p) (strsRVL rest)

/-- Shared tail of the rule-4 branch after a successful decode: clean, then if
longer than two characters split on `;`/`,`/NUL into non-empty trimmed parts,
returning the part list, the single part, or the cleaned string. -/
def byteArrFinish (cs : List Char) : RawValue :=
  let s := cleanDecoded cs
  if s.length > 2 then
    match splitParts s.data with
    | [] => .str s
    | [p] => .str p
    | parts => .list (strsRVL parts)
  else .str s

/-- Rule 4, the embedded byte-string branch: `bytes(v)` decoded with UTF-16LE,
then UTF-8, then Latin-1 (first success wins; Latin-1 is total). -/
def byteArrValue (bs : List Nat) : RawValue :=
  match utf16leDecode bs with
  | some cs => byteArrFinish cs
  | none =>
    match utf8Decode bs with
    | some cs => byteArrFinish cs
    | none => byteArrFinish (latin1Decode bs)

mutual
/-- The successful paths of `MetadataHandler._normalize_value`
(metadata_handler.py, lines 43–119): bytes are decoded to text; dicts recurse
over keys and values; lists are matched against the rational-pair, byte-array
and rational-array shapes in the source's order, falling back to element-wise
normalization; every other scalar passes through unchanged.

This function is total: its dict branch maps over the entries without the
insertion step, so it does not show the `TypeError` the real comprehension
raises when a key normalizes to an unhashable list, and it does not merge
keys that collide after normalization.  The faithful, fallible embedding of
`_normalize_value` is `normalizeValueE` below, which delegates to exactly the
same branch functions on lists and scalars and adds the insertion semantics;
claims that touch dict behavior are stated on `normalizeValueE`. -/
def normalizeValue : RawValue → RawValue
  | .int n => .int n
  | .float q => .float q
  | .str s => .str s
  | .bytes bs => .str (bytesValue bs)
  | .dict d => .dict (normalizeDict d)
  | .list xs =>
    if isPair2 xs then pairValue xs
    else if isByteArr xs then byteArrValue (rvToBytes xs)
    else if isPairArr xs then ratArrayValue xs
    else .list (normalizeList xs)
/-- Element-wise branch of `_normalize_value` on lists. -/
def normalizeList : RVList → RVList
  | .nil => .nil
  | .cons v t => .cons (normalizeValue v) (normalizeList t)
/-- Dict branch restricted to per-entry normalization (no insertion step;
see `normalizeEntriesE`/`insertsPy` for the real comprehension semantics). -/
def normalizeDict : RVDict → RVDict
  | .dnil => .dnil
  | .dcons k v t => .dcons (normalizeValue k) (normalizeValue v) (normalizeDict t)
end

/-- Is the value an embedded Python `float`? -/
def rvIsFloat : RawValue → Bool
  | .float _ => true
  | _ => false

/-- The quotient `num/den if den else 0` as a rational (the numeric content of
`pairToFloat`). -/
def divOr0 (n d : Int) : ℚ := if d = 0 then 0 else (n : ℚ) / (d : ℚ)

/-- An embedded two-integer rational pair. -/
def mkPair (n d : Int) : RawValue :=
  .list (.cons (.int n) (.cons (.int d) .nil))

/-- Guard used by the no-zero-denominator invariant: if the list is a single
rational pair, its denominator is non-zero. -/
def pairOkB : RVList → Bool
  | .cons (.int _) (.cons (.int d) .nil) => !(d = 0 : Bool)
  | _ => true

mutual
/-- No two-integer pair anywhere inside the value has denominator zero — the
domain on which normalization will be proved idempotent. -/
def noZeroDen : RawValue → Bool
  | .int _ => true
  | .float _ => true
  | .str _ => true
  | .bytes _ => true
  | .list xs => pairOkB xs && noZeroDenL xs
  | .dict d => noZeroDenD d
/-- List version of `noZeroDen`. -/
def noZeroDenL : RVList → Bool
  | .nil => true
  | .cons v t => noZeroDen v && noZeroDenL t
/-- Dict version of `noZeroDen`. -/
def noZeroDenD : RVDict → Bool
  | .dnil => true
  | .dcons k v t => noZeroDen k && noZeroDen v && noZeroDenD t
end

/-- The keys of an embedded dict, in order. -/
def dictKeys : RVDict → List RawValue
  | .dnil => []
  | .dcons k _ t => k :: dictKeys t

/-- Top-level key handling of `_normalize_metadata_dict`: a string key
containing a right brace is replaced by the content after the first one. -/
def stripKeyTop : RawValue → RawValue
  | .str s => .str (afterFirstRBrace s)
  | k => k

/-! ### Faithful dict semantics

Python's dict comprehension and `out[key] = value` differ from a plain map in
two observable ways: assigning to an existing key (Python `==`) overwrites
the value in place and keeps the first-inserted key object, and inserting an
unhashable key — a `list` or `dict` — raises `TypeError`.  `pyEq`, `pyDictSet`
and `insertsPy` model the first; `normalizeValueE` models the second, making
the embedding of `_normalize_value` fallible exactly where the source is. -/

mutual
/-- Python `==` between dict keys.  Numbers compare cross-type (`0 == 0.0`),
strings, bytes and tuples compare by content.  Only hashable values ever
reach a key comparison, so conflating Python lists with tuples in `RawValue`
is harmless here, and dicts (unhashable) are never compared. -/
def pyEq : RawValue → RawValue → Bool
  | .int a, .int b => decide (a = b)
  | .int a, .float q => decide ((a : ℚ) = q)
  | .float q, .int a => decide (q = (a : ℚ))
  | .float p, .float q => decide (p = q)
  | .str s, .str t => decide (s = t)
  | .bytes a, .bytes b => decide (a = b)
  | .list xs, .list ys => pyEqL xs ys
  | _, _ => false
/-- Elementwise `pyEq` (Python tuple equality). -/
def pyEqL : RVList → RVList → Bool
  | .nil, .nil => true
  | .cons a as, .cons b bs => pyEq a b && pyEqL as bs
  | _, _ => false
end

/-- Is the value hashable in Python (usable as a dict key)?  Lists and dicts
are not. -/
def pyHashableB : RawValue → Bool
  | .list _ => false
  | .dict _ => false
  | _ => true

/-- Does the dict hold an entry whose stored key is Python-equal to `k`? -/
def hasKey : RVDict → RawValue → Bool
  | .dnil, _ => false
  | .dcons k0 _ t, k => pyEq k0 k || hasKey t k

/-- Python `d[k] = v`: overwrite the value of the first (unique) Python-equal
stored key in place — the stored key object is kept — or append a new entry. -/
def pyDictSet : RVDict → RawValue → RawValue → RVDict
  | .dnil, k, v => .dcons k v .dnil
  | .dcons k0 v0 t, k, v =>
    if pyEq k0 k then .dcons k0 v t
    else .dcons k0 v0 (pyDictSet t k v)

/-- Insert a sequence of (already normalized, hashable) entries into a dict
one by one, in order — the build-up of a dict comprehension or of the
`out[key] = value` loop. -/
def insertsPy : RVDict → RVDict → RVDict
  | acc, .dnil => acc
  | acc, .dcons k v t => insertsPy (pyDictSet acc k v) t

/-- Append of embedded dicts (entry concatenation, no merging). -/
def dappend : RVDict → RVDict → RVDict
  | .dnil, e => e
  | .dcons k v t, e => .dcons k v (dappend t e)

/-- The message of CPython's `TypeError` for a list used as a dict key. -/
def typeErrListMsg : String := "TypeError: unhashable type: \x27list\x27"

/-- The message of CPython's `TypeError` for a dict used as a dict key. -/
def typeErrDictMsg : String := "TypeError: unhashable type: \x27dict\x27"

mutual
/-- The faithful embedding of `MetadataHandler._normalize_value`
(metadata_handler.py, lines 43–119), including the failure path: the dict
branch is the unguarded comprehension
`{self._normalize_value(k): self._normalize_value(val) for k, val in v.items()}`
(line 64), which evaluates key then value then inserts, and raises
`TypeError` when a normalized key is an unhashable list — the error escapes
`_normalize_value`, so the result is `Except`.  All list and scalar branches
delegate to the same branch functions as `normalizeValue` and cannot fail. -/
def normalizeValueE : RawValue → Except String RawValue
  | .int n => .ok (.int n)
  | .float q => .ok (.float q)
  | .str s => .ok (.str s)
  | .bytes bs => .ok (.str (bytesValue bs))
  | .dict d =>
    match normalizeEntriesE d with
    | .error e => .error e
    | .ok es => .ok (.dict (insertsPy .dnil es))
  | .list xs =>
    if isPair2 xs then .ok (pairValue xs)
    else if isByteArr xs then .ok (byteArrValue (rvToBytes xs))
    else if isPairArr xs then .ok (ratArrayValue xs)
    else
      match normalizeListE xs with
      | .error e => .error e
      | .ok ys => .ok (.list ys)
/-- Element-wise branch of the fallible normalizer: the list comprehension
`[self._normalize_value(x) for x in v]` propagates a nested error. -/
def normalizeListE : RVList → Except String RVList
  | .nil => .ok .nil
  | .cons v t =>
    match normalizeValueE v with
    | .error e => .error e
    | .ok nv =>
      match normalizeListE t with
      | .error e => .error e
      | .ok nt => .ok (.cons nv nt)
/-- The entries of the dict comprehension in evaluation order: for each item,
normalize the key, normalize the value, then make sure the key is hashable
(the insertion raises `TypeError` otherwise).  The resulting entry sequence
is merged by `insertsPy`. -/
def normalizeEntriesE : RVDict → Except String RVDict
  | .dnil => .ok .dnil
  | .dcons k v t =>
    match normalizeValueE k with
    | .error e => .error e
    | .ok nk =>
      match normalizeValueE v with
      | .error e => .error e
      | .ok nv =>
        match nk with
        | .list _ => .error typeErrListMsg
        | .dict _ => .error typeErrDictMsg
        | _ =>
          match normalizeEntriesE t with
          | .error e => .error e
          | .ok nt => .ok (.dcons nk nv nt)
end

/-- The entry sequence of `MetadataHandler._normalize_metadata_dict` (lines
121–131) in evaluation order: strip each top-level key, normalize each value
through the fallible normalizer (a nested dict error propagates — the
function has no try/except of its own).  Top-level keys were dict keys of
the input already, hence hashable, so their re-insertion cannot raise. -/
def normalizeMetaEntriesE : RVDict → Except String RVDict
  | .dnil => .ok .dnil
  | .dcons k v t =>
    match normalizeValueE v with
    | .error e => .error e
    | .ok nv =>
      match normalizeMetaEntriesE t with
      | .error e => .error e
      | .ok nt => .ok (.dcons (stripKeyTop k) nv nt)

/-- Embedding of `MetadataHandler._normalize_metadata_dict`: the `out[key] =`
loop merges entries whose stripped keys collide (last value wins, first key
object kept). -/
def normalizeMetadataDictE (d : RVDict) : Except String RVDict :=
  match normalizeMetaEntriesE d with
  | .error e => .error e
  | .ok es => .ok (insertsPy .dnil es)

mutual
/-- Normal forms of the fallible normalizer: values it maps to themselves.
Scalars are normal; bytes never are; a list is normal when it matches none of
the three special shapes and its elements are normal; a dict is normal when
its keys are hashable and normal and pairwise Python-distinct — as every dict
the normalizer outputs is — and its values are normal. -/
def normalEB : RawValue → Bool
  | .int _ => true
  | .float _ => true
  | .str _ => true
  | .bytes _ => false
  | .list xs => !isPair2 xs && !isByteArr xs && !isPairArr xs && normalELB xs
  | .dict d => normalEDB d
/-- List version of `normalEB`. -/
def normalELB : RVList → Bool
  | .nil => true
  | .cons v t => normalEB v && normalELB t
/-- Dict version of `normalEB`. -/
def normalEDB : RVDict → Bool
  | .dnil => true
  | .dcons k v t =>
    pyHashableB k && normalEB k && normalEB v && !hasKey t k && normalEDB t
end

/-- Per-entry invariant of a normalized entry sequence: keys hashable and
normal, values normal (no distinctness — entries may still collide). -/
def entriesOkB : RVDict → Bool
  | .dnil => true
  | .dcons k v t => pyHashableB k && normalEB k && normalEB v && entriesOkB t

mutual
/-- Values without dicts anywhere: on these, normalization cannot raise. -/
def dictFreeB : RawValue → Bool
  | .dict _ => false
  | .list xs => dictFreeLB xs
  | _ => true
/-- List version of `dictFreeB`. -/
def dictFreeLB : RVList → Bool
  | .nil => true
  | .cons v t => dictFreeB v && dictFreeLB t
end

/-! ### The EXIF encode phase of `edit_metadata`

`IfdMap` is the piexif-style structure `{"0th": {...}, "Exif": {...},
"GPS": {...}, "1st": {...}, "thumbnail": ...}`, each IFD an insertion-ordered
mapping from numeric tag id to raw tag value. -/

/-- One EXIF IFD: an insertion-ordered association list from tag id to value. -/
abbrev Ifd := List (Nat × RawValue)

/-- The piexif IFD map produced by `piexif.load` / consumed by `piexif.dump`. -/
structure IfdMap where
  zeroth : Ifd
  exifIfd : Ifd
  gps : Ifd
  first : Ifd
  thumbnail : Option (List Nat)

/-- Python dict assignment `d[k] = v` on an insertion-ordered association
list: overwrite in place if the key exists, else append. -/
def dictSet (l : List (Nat × RawValue)) (k : Nat) (v : RawValue) :
    List (Nat × RawValue) :=
  if l.any (fun p => p.1 = k) then
    l.map (fun p => if p.1 = k then (k, v) else p)
  else l ++ [(k, v)]

/-- The `keep_0th` allow-list of `edit_metadata` (lines 565–572): Make, Model,
Orientation, XResolution, YResolution, ResolutionUnit. -/
def keep0th : List Nat := [0x010F, 0x0110, 0x0112, 0x011A, 0x011B, 0x0128]

/-- The `keep_exif` allow-list of `edit_metadata` (lines 573–604); the
`hasattr` fallbacks in the source name the same hexadecimal ids that the
piexif constants carry. -/
def keepExif : List Nat :=
  [0x9003, 0x9004, 0x9291, 0x9292, 0x9000, 0x829A, 0x829D, 0x9201, 0x9202,
   0x9204, 0x9205, 0x8822, 0x8827, 0x8830, 0x8832, 0x9207, 0x9209, 0x920A,
   0xA001, 0xA20E, 0xA20F, 0xA210, 0xA401, 0xA402, 0xA403, 0xA406, 0xA431,
   0xA432, 0xA434, 0xA435]

/-- The purge step of `edit_metadata` (lines 563–617): build a fresh IFD map
keeping only allow-listed 0th/Exif tags, copying the GPS IFD wholesale,
leaving the 1st IFD empty and the thumbnail `None`. -/
def purgeNonCamera (m : IfdMap) : IfdMap where
  zeroth := m.zeroth.filter (fun p => keep0th.contains p.1)
  exifIfd := m.exifIfd.filter (fun p => keepExif.contains p.1)
  gps := m.gps
  first := []
  thumbnail := none

/-- A Python value that may be a string or a list of strings, as accepted for
the `creator`/`authors` and `subject` update fields. -/
inductive StrOrList where
  | s : String → StrOrList
  | l : List String → StrOrList
deriving DecidableEq

/-- Python truthiness of a string-or-list value. -/
def StrOrList.truthy : StrOrList → Bool
  | .s v => v ≠ ""
  | .l v => !v.isEmpty

/-- Python `str()` of a string-or-list value.  List display is modelled for
items without quotes or escapes — the only shapes any claim touches. -/
def StrOrList.pyStr : StrOrList → String
  | .s v => v
  | .l v =>
    "[" ++ String.intercalate ", " (v.map (fun x => "\x27" ++ x ++ "\x27")) ++ "]"

/-- The `metadata_updates` dict passed to `edit_metadata`: `none` models an
absent key. -/
structure EditRequest where
  purge_non_camera : Option Bool := none
  headline : Option String := none
  title : Option String := none
  creator : Option StrOrList := none
  authors : Option StrOrList := none
  rights : Option String := none
  copyright : Option String := none
  subject : Option StrOrList := none
  description : Option String := none
  comments : Option String := none
  date_created : Option String := none

/-- Python `updates.get(a) or updates.get(b) or ''` on string fields: the
first present, non-empty value. -/
def pyOrStr (a b : Option String) : String :=
  match a with
  | some v => if v ≠ "" then v else (b.getD "")
  | none => b.getD ""

/-- Second stage of the falsy chain on a string-or-list field: a present
truthy value wins, anything else collapses to the empty string. -/
def solOrEmpty (b : Option StrOrList) : StrOrList :=
  match b with
  | some w => if w.truthy then w else .s ""
  | none => .s ""

/-- Python `updates.get(a) or updates.get(b) or ''` on string-or-list fields. -/
def pyOrSOL (a b : Option StrOrList) : StrOrList :=
  match a with
  | some v => if v.truthy then v else solOrEmpty b
  | none => solOrEmpty b

/-- Effective headline of the EXIF/XMP write phases:
`updates.get('headline') or updates.get('title') or ''`. -/
def effHeadline (u : EditRequest) : String := pyOrStr u.headline u.title

/-- Effective creator: `updates.get('creator') or updates.get('authors') or ''`. -/
def effCreator (u : EditRequest) : StrOrList := pyOrSOL u.creator u.authors

/-- Effective rights: `updates.get('rights') or updates.get('copyright') or ''`. -/
def effRights (u : EditRequest) : String := pyOrStr u.rights u.copyright

/-- Effective description: `updates.get('description') or updates.get('comments') or ''`. -/
def effDescription (u : EditRequest) : String := pyOrStr u.description u.comments

/-- Effective subject: `updates.get('subject', '')`. -/
def effSubject (u : EditRequest) : StrOrList := u.subject.getD (.s "")

/-- Effective date: `updates.get('date_created', '')`. -/
def effDate (u : EditRequest) : String := u.date_created.getD ""

/-- The EXIF encode phase of `edit_metadata` (lines 561–653): optionally purge
(default `True` via `metadata_updates.get('purge_non_camera', True)`), then
map the edit fields onto ImageDescription, Artist, Copyright, XPSubject (0th)
and UserComment, DateTimeOriginal (Exif), each only when non-empty. -/
def encodeExifPhase (existing : IfdMap) (u : EditRequest) : IfdMap :=
  let base := if u.purge_non_camera.getD true then purgeNonCamera existing else existing
  let headline := effHeadline u
  let creator := effCreator u
  let rights := effRights u
  let subj := effSubject u
  let de := effDescription u
  let dc := effDate u
  let z := base.zeroth
  let z := if headline ≠ "" then dictSet z 0x010E (.bytes (utf8Encode headline)) else z
  let z := if creator.truthy then dictSet z 0x013B (.bytes (utf8Encode creator.pyStr)) else z
  let z := if rights ≠ "" then dictSet z 0x8298 (.bytes (utf8Encode rights)) else z
  let z := if subj.truthy then dictSet z 0x9C9F (.bytes (utf16leEncode subj.pyStr)) else z
  let e := base.exifIfd
  let e := if de ≠ "" then dictSet e 0x9286 (.bytes (utf8Encode de)) else e
  let e := if dc ≠ "" then dictSet e 0x9003 (.bytes (utf8Encode dc)) else e
  { base with zeroth := z, exifIfd := e }

/-- Top-level control flow of `edit_metadata` (lines 531–745).  The two write
phases are filesystem effects; their outcomes are passed in as `Except`
values.  Returns the method's boolean result together with the final
`last_error`: a missing file returns `False` immediately; afterwards each
phase failure only records a message, and the method returns `True`. -/
def editMetadata (path : String) (fileExists : Bool)
    (exifPhase xmpPhase : Except String Unit) (lastError : Option String) :
    Bool × Option String :=
  if !fileExists then (false, some ("File not found: " ++ path))
  else
    let le1 := match exifPhase with
      | .error e => some ("Error writing EXIF: " ++ e)
      | .ok _ => lastError
    let le2 := match xmpPhase with
      | .error e => some ("Error writing XMP: " ++ e)
      | .ok _ => le1
    (true, le2)

/-! ### The XMP packet builder of `edit_metadata` (lines 672–728) -/

/-- `xml.sax.saxutils.escape`: replace `&`, `<`, `>` by entities. -/
def xmlEscape (s : String) : String :=
  String.mk (s.data.flatMap (fun c =>
    if c = '&' then "&amp;".data
    else if c = '<' then "&lt;".data
    else if c = '>' then "&gt;".data
    else [c]))

/-- Message of the `AttributeError` raised when the creator comprehension
calls `.strip()` on a non-string element. -/
def creatorListMsg : String :=
  "AttributeError: \x27list\x27 object has no attribute \x27strip\x27"

/-- One `<rdf:li>` per item, escaped — the creator comprehension
`''.join([f'<rdf:li>{_escape(a.strip())}</rdf:li>' for a in items if a])`
(items from `_split_items` are already stripped and non-empty). -/
def liJoin (items : List String) : String :=
  String.join (items.map (fun a => "<rdf:li>" ++ xmlEscape a ++ "</rdf:li>"))

/-- The `dc:creator` lines of the packet (lines 706–709).  A truthy string is
split on `,`/`;`; a truthy *list* `creator` makes the comprehension iterate
over `[creator]` and call `creator.strip()`, raising `AttributeError`, which
aborts the whole XMP write — modelled as `Except.error`. -/
def xmpCreatorLines : StrOrList → Except String (List String)
  | .s v =>
    if v ≠ "" then
      .ok ["<dc:creator><rdf:Seq>" ++ liJoin (splitItems v) ++ "</rdf:Seq></dc:creator>"]
    else .ok []
  | .l v =>
    if !v.isEmpty then .error creatorListMsg else .ok []

/-- The `subj_items` computation (lines 711–716): a truthy string is split on
`,`/`;` and each part escaped; a truthy list keeps its items unstripped,
escaped, dropping blank ones. -/
def xmpSubjectItems : StrOrList → List String
  | .s v => if v ≠ "" then (splitItems v).map xmlEscape else []
  | .l v =>
    if !v.isEmpty then (v.filter (fun x => pyStrip x ≠ "")).map xmlEscape else []

/-- The `dc:subject` line: one `<rdf:li>` per (pre-escaped) item in an
`rdf:Bag`. -/
def subjectLine (items : List String) : String :=
  "<dc:subject><rdf:Bag>" ++
    String.join (items.map (fun x => "<rdf:li>" ++ x ++ "</rdf:li>")) ++
    "</rdf:Bag></dc:subject>"

/-- The `dc:description` line (rdf:Alt with an `x-default` item). -/
def descriptionLine (d : String) : String :=
  "<dc:description><rdf:Alt><rdf:li xml:lang=\"x-default\">" ++ xmlEscape d ++
    "</rdf:li></rdf:Alt></dc:description>"

/-- The `dc:rights` line (rdf:Alt with an `x-default` item). -/
def rightsLine (r : String) : String :=
  "<dc:rights><rdf:Alt><rdf:li xml:lang=\"x-default\">" ++ xmlEscape r ++
    "</rdf:li></rdf:Alt></dc:rights>"

/-- Opening `rdf:Description` tag with its namespace declarations and the
optional `photoshop:Headline` / `xmp:CreateDate` / `photoshop:DateCreated`
attributes. -/
def descriptionOpen (headline date : String) : String :=
  "<rdf:Description xmlns:dc=\"http://purl.org/dc/elements/1.1/\" " ++
  "xmlns:photoshop=\"http://ns.adobe.com/photoshop/1.0/\" " ++
  "xmlns:xmp=\"http://ns.adobe.com/xap/1.0/\"" ++
  (if headline ≠ "" then " photoshop:Headline=\"" ++ xmlEscape headline ++ "\"" else "") ++
  (if date ≠ "" then " xmp:CreateDate=\"" ++ xmlEscape date ++ "\"" else "") ++
  (if date ≠ "" then " photoshop:DateCreated=\"" ++ xmlEscape date ++ "\"" else "") ++
  ">"

/-- The XMP packet builder inside `edit_metadata` (lines 688–728): assemble
`xmp_lines` in source order and join with newlines.  A raised exception
(the creator-list `AttributeError`) escapes to the enclosing `except`, so the
result is `Except`. -/
def xmpEncode (u : EditRequest) : Except String String :=
  let headline := effHeadline u
  let de := effDescription u
  let creator := effCreator u
  let rights := effRights u
  let subj := effSubject u
  let date := effDate u
  let l1 : List String :=
    ["<?xpacket begin=\"﻿\" id=\"W5M0MpCehiHzreSzNTczkc9d\"?>",
     "<x:xmpmeta xmlns:x=\"adobe:ns:meta/\">",
     "<rdf:RDF xmlns:rdf=\"http://www.w3.org/1999/02/22-rdf-syntax-ns#\">",
     descriptionOpen headline date]
  let l2 := l1 ++ (if de ≠ "" then [descriptionLine de] else [])
  match xmpCreatorLines creator with
  | .error e => .error e
  | .ok cls =>
    let l3 := l2 ++ cls
    let sitems := xmpSubjectItems subj
    let l4 := l3 ++ (if sitems.isEmpty then [] else [subjectLine sitems])
    let l5 := l4 ++ (if rights ≠ "" then [rightsLine rights] else [])
    let l6 := l5 ++
      ["</rdf:Description>", "</rdf:RDF>", "</x:xmpmeta>", "<?xpacket end=\"w\"?>"]
    .ok (String.intercalate "\n" l6)

/-! ### Model of the external XML parser

The engine hands XMP packets to `xml.etree.ElementTree.fromstring` (Python
standard library — an external collaborator, like piexif).  `xmlFromString`
models it for the XML subset the engine reads and writes: elements,
double-quoted attributes, character data with the five named entities and
numeric character references, processing instructions and comments (skipped),
and namespace resolution into ElementTree's `{uri}local` qualified names,
with `xmlns`/`xmlns:p` declarations removed from the attribute map.
`elem.text` is modelled as the character data between the start tag and the
first child (the only text ElementTree exposes as `.text`), with "no text"
modelled as the empty string — every use in the engine guards with
`text.strip()`, so the two coincide. -/

/-- A parsed XML element: namespace-qualified tag, resolved attributes,
leading text, children in document order. -/
inductive XElem where
  | mk : String → List (String × String) → String → List XElem → XElem

/-- Qualified tag of an element. -/
def XElem.tag : XElem → String
  | .mk t _ _ _ => t

/-- Attribute map of an element (namespace declarations removed). -/
def XElem.attrib : XElem → List (String × String)
  | .mk _ a _ _ => a

/-- Text between the start tag and the first child. -/
def XElem.text : XElem → String
  | .mk _ _ t _ => t

/-- Child elements in document order. -/
def XElem.children : XElem → List XElem
  | .mk _ _ _ c => c

/-- Proper descendants of an element, document order (ElementTree
`elem.findall('.//…')` search space).  Fuel bounds the nesting depth. -/
def descendants : Nat → XElem → List XElem
  | 0, _ => []
  | f + 1, e => e.children.flatMap (fun c => c :: descendants f c)

/-- XML whitespace. -/
def isXmlWs (c : Char) : Bool := c = ' ' || c = '\t' || c = '\n' || c = '\r'

/-- XML name characters (letters, digits, `:`, `_`, `-`, `.` — the alphabet
of every name the engine emits or reads). -/
def isNameChar (c : Char) : Bool :=
  c.isAlpha || c.isDigit || c = ':' || c = '_' || c = '-' || c = '.'

/-- Skip input through the first occurrence of `seq`; `none` if absent. -/
def dropAfterSeq : Nat → List Char → List Char → Option (List Char)
  | 0, _, _ => none
  | f + 1, seq, cs =>
    if seq.isPrefixOf cs then some (cs.drop seq.length)
    else match cs with
      | [] => none
      | _ :: t => dropAfterSeq f seq t

/-- Decode one entity reference after the `&`: the five named entities and
decimal/hexadecimal character references. -/
def parseEntity (cs : List Char) : Option (Char × List Char) :=
  let name := cs.takeWhile (fun c => c ≠ ';')
  match cs.drop name.length with
  | ';' :: rest =>
    let n := String.mk name
    if n = "amp" then some ('&', rest)
    else if n = "lt" then some ('<', rest)
    else if n = "gt" then some ('>', rest)
    else if n = "quot" then some ('"', rest)
    else if n = "apos" then some (Char.ofNat 39, rest)
    else
      match name with
      | '#' :: 'x' :: ds =>
        if ds ≠ [] && ds.all (fun c => c.isDigit || ('a' ≤ c && c ≤ 'f') || ('A' ≤ c && c ≤ 'F')) then
          some (Char.ofNat (ds.foldl (fun acc c =>
            acc * 16 + (if c.isDigit then c.toNat - 48
                        else if 'a' ≤ c then c.toNat - 87 else c.toNat - 55)) 0), rest)
        else none
      | '#' :: ds =>
        if ds ≠ [] && ds.all Char.isDigit then
          some (Char.ofNat (ds.foldl (fun acc c => acc * 10 + (c.toNat - 48)) 0), rest)
        else none
      | _ => none
  | _ => none

/-- Read character data up to the next `<` (or end of input), decoding
entities; a bare `&` that is not a well-formed reference is a parse error. -/
def readTextChunk : Nat → List Char → Except String (List Char × List Char)
  | 0, _ => .error "internal fuel exhausted"
  | _ + 1, [] => .ok ([], [])
  | f + 1, c :: rest =>
    if c = '<' then .ok ([], c :: rest)
    else if c = '&' then
      match parseEntity rest with
      | some (ch, r2) => (readTextChunk f r2).map (fun p => (ch :: p.1, p.2))
      | none => .error "not well-formed (invalid token): bad entity"
    else (readTextChunk f rest).map (fun p => (c :: p.1, p.2))

/-- Read a double-quoted attribute value after its opening quote, decoding
entities; raw `<` is a parse error. -/
def readAttrValue : Nat → List Char → Except String (List Char × List Char)
  | 0, _ => .error "internal fuel exhausted"
  | _ + 1, [] => .error "unclosed token"
  | f + 1, c :: rest =>
    if c = '"' then .ok ([], rest)
    else if c = '<' then .error "not well-formed (invalid token): lt in attribute"
    else if c = '&' then
      match parseEntity rest with
      | some (ch, r2) => (readAttrValue f r2).map (fun p => (ch :: p.1, p.2))
      | none => .error "not well-formed (invalid token): bad entity"
    else (readAttrValue f rest).map (fun p => (c :: p.1, p.2))

/-- Parse the attribute list of a start tag, stopping before `/` or `>`. -/
def parseAttrList : Nat → List Char → Except String (List (String × String) × List Char)
  | 0, _ => .error "internal fuel exhausted"
  | f + 1, cs =>
    let cs1 := cs.dropWhile isXmlWs
    match cs1 with
    | [] => .error "unclosed token"
    | c :: _ =>
      if c = '/' || c = '>' then .ok ([], cs1)
      else
        let name := cs1.takeWhile isNameChar
        if name.isEmpty then .error "not well-formed (invalid token)"
        else
          let cs2 := (cs1.drop name.length).dropWhile isXmlWs
          match cs2 with
          | '=' :: cs3 =>
            match cs3.dropWhile isXmlWs with
            | '"' :: cs4 =>
              match readAttrValue (cs4.length + 1) cs4 with
              | .error e => .error e
              | .ok (v, cs5) =>
                (parseAttrList f cs5).map
                  (fun p => ((String.mk name, String.mk v) :: p.1, p.2))
            | _ => .error "not well-formed (invalid token)"
          | _ => .error "not well-formed (invalid token)"

/-- The URI bound to the reserved `xml` prefix. -/
def xmlNsUri : String := "http://www.w3.org/XML/1998/namespace"

/-- ElementTree qualified name `{uri}local`. -/
def qname (uri loc : String) : String :=
  "\x7b" ++ uri ++ "\x7d" ++ loc

/-- Namespace declarations among the raw attributes: `xmlns="u"` binds the
default prefix `""`, `xmlns:p="u"` binds `p`.  Later declarations shadow. -/
def nsBindings (attrs : List (String × String)) : List (String × String) :=
  attrs.foldl (fun acc kv =>
    if kv.1 = "xmlns" then ("", kv.2) :: acc
    else if ("xmlns:".data).isPrefixOf kv.1.data then
      (String.mk (kv.1.data.drop 6), kv.2) :: acc
    else acc) []

/-- Look a prefix up in the namespace environment (innermost first). -/
def nsLookup (env : List (String × String)) (p : String) : Option String :=
  (env.find? (fun b => b.1 = p)).map (fun b => b.2)

/-- Resolve an element tag: a prefixed name needs its prefix bound (else the
parse fails, as in ElementTree); an unprefixed name takes the default
namespace when one is declared. -/
def resolveTag (env : List (String × String)) (name : String) : Option String :=
  if name.data.contains ':' then
    let p := String.mk (name.data.takeWhile (fun c => c ≠ ':'))
    let loc := String.mk ((name.data.dropWhile (fun c => c ≠ ':')).drop 1)
    (nsLookup env p).map (fun uri => qname uri loc)
  else
    match nsLookup env "" with
    | some uri => some (qname uri name)
    | none => some name

/-- Resolve an attribute name: unprefixed attributes are never in the default
namespace. -/
def resolveAttrName (env : List (String × String)) (name : String) : Option String :=
  if name.data.contains ':' then
    let p := String.mk (name.data.takeWhile (fun c => c ≠ ':'))
    let loc := String.mk ((name.data.dropWhile (fun c => c ≠ ':')).drop 1)
    (nsLookup env p).map (fun uri => qname uri loc)
  else some name

/-- Resolve every non-declaration attribute; `none` on an unbound prefix. -/
def resolveAttrs (env : List (String × String)) :
    List (String × String) → Option (List (String × String))
  | [] => some []
  | kv :: rest =>
    if kv.1 = "xmlns" || ("xmlns:".data).isPrefixOf kv.1.data then
      resolveAttrs env rest
    else
      match resolveAttrName env kv.1 with
      | none => none
      | some k =>
        (resolveAttrs env rest).map (fun r => (k, kv.2) :: r)

mutual
/-- Parse one element starting at `<`; returns the element and the rest. -/
def parseElem : Nat → List (String × String) → List Char →
    Except String (XElem × List Char)
  | 0, _, _ => .error "internal fuel exhausted"
  | f + 1, env, cs =>
    match cs with
    | '<' :: rest =>
      let name := rest.takeWhile isNameChar
      if name.isEmpty then .error "not well-formed (invalid token)"
      else
        match parseAttrList (rest.length + 1) (rest.drop name.length) with
        | .error e => .error e
        | .ok (rawAttrs, cs2) =>
          let env2 := nsBindings rawAttrs ++ env
          match resolveTag env2 (String.mk name) with
          | none => .error ("unbound prefix: " ++ String.mk name)
          | some tag =>
            match resolveAttrs env2 rawAttrs with
            | none => .error "unbound prefix in attribute"
            | some attribs =>
              match cs2 with
              | '/' :: '>' :: cs3 => .ok (.mk tag attribs "" [], cs3)
              | '>' :: cs3 => parseContent f env2 (String.mk name) tag attribs none [] cs3
              | _ => .error "not well-formed (invalid token)"
    | _ => .error "not well-formed (invalid token)"
/-- Parse element content: text, child elements, processing instructions and
comments, up to the matching close tag. -/
def parseContent : Nat → List (String × String) → String → String →
    List (String × String) → Option String → List XElem → List Char →
    Except String (XElem × List Char)
  | 0, _, _, _, _, _, _, _ => .error "internal fuel exhausted"
  | f + 1, env, rawName, tag, attribs, firstText, kids, cs =>
    match readTextChunk (cs.length + 1) cs with
    | .error e => .error e
    | .ok (chunk, cs2) =>
      let firstText :=
        if kids.isEmpty && firstText.isNone && !chunk.isEmpty then
          some (String.mk chunk)
        else firstText
      match cs2 with
      | [] => .error "no element found"
      | '<' :: '/' :: cs3 =>
        let name2 := cs3.takeWhile isNameChar
        if String.mk name2 = rawName then
          match (cs3.drop name2.length).dropWhile isXmlWs with
          | '>' :: cs4 =>
            .ok (.mk tag attribs (firstText.getD "") kids.reverse, cs4)
          | _ => .error "not well-formed (invalid token)"
        else .error ("mismatched tag: " ++ String.mk name2)
      | '<' :: '?' :: cs3 =>
        match dropAfterSeq (cs3.length + 1) "?>".data cs3 with
        | some cs4 => parseContent f env rawName tag attribs firstText kids cs4
        | none => .error "unclosed token"
      | '<' :: '!' :: '-' :: '-' :: cs3 =>
        match dropAfterSeq (cs3.length + 1) "-->".data cs3 with
        | some cs4 => parseContent f env rawName tag attribs firstText kids cs4
        | none => .error "unclosed token"
      | '<' :: _ =>
        match parseElem f env cs2 with
        | .error e => .error e
        | .ok (child, cs3) =>
          parseContent f env rawName tag attribs firstText (child :: kids) cs3
      | _ => .error "not well-formed (invalid token)"
end

/-- Skip leading whitespace, processing instructions and comments (the XML
prolog and trailing misc). -/
def skipMisc : Nat → List Char → Except String (List Char)
  | 0, _ => .error "internal fuel exhausted"
  | f + 1, cs =>
    let cs1 := cs.dropWhile isXmlWs
    if ("<?".data).isPrefixOf cs1 then
      match dropAfterSeq (cs1.length + 1) "?>".data cs1 with
      | some cs2 => skipMisc f cs2
      | none => .error "unclosed token"
    else if ("<!--".data).isPrefixOf cs1 then
      match dropAfterSeq (cs1.length + 1) "-->".data cs1 with
      | some cs2 => skipMisc f cs2
      | none => .error "unclosed token"
    else .ok cs1

/-- Model of `xml.etree.ElementTree.fromstring`: prolog, one root element,
trailing misc only.  Returns a parse-failure message exactly when ElementTree
would raise `ParseError`. -/
def xmlFromString (s : String) : Except String XElem :=
  match skipMisc (s.data.length + 1) s.data with
  | .error e => .error e
  | .ok cs1 =>
    if cs1.isEmpty then .error "no element found"
    else
      match parseElem (cs1.length + 1) [("xml", xmlNsUri)] cs1 with
      | .error e => .error e
      | .ok (root, rest) =>
        match skipMisc (rest.length + 1) rest with
        | .error e => .error e
        | .ok [] => .ok root
        | .ok _ => .error "junk after document element"

/-! ### The XMP decoders -/

/-- A decoded XMP field value: a string or a list of strings. -/
inductive XmpVal where
  | vs : String → XmpVal
  | vl : List String → XmpVal
deriving DecidableEq

/-- Python dict assignment on the string-keyed output map. -/
def strSet (l : List (String × XmpVal)) (k : String) (v : XmpVal) :
    List (String × XmpVal) :=
  if l.any (fun p => p.1 = k) then
    l.map (fun p => if p.1 = k then (k, v) else p)
  else l ++ [(k, v)]

/-- ASCII lower-casing of one character (model of `str.lower()` for the tag
names the decoders compare). -/
def lowerChar (c : Char) : Char :=
  if 65 ≤ c.toNat && c.toNat ≤ 90 then Char.ofNat (c.toNat + 32) else c

/-- The RDF namespace qualified name used by both decoders. -/
def rdfQ (loc : String) : String :=
  qname "http://www.w3.org/1999/02/22-rdf-syntax-ns#" loc

/-- Child-element handling of the viewer's `parse_xmp_xml`
(metadata_viewer.py, lines 212–226): collapse `rdf:li` descendants to a
single string for title/description/rights/headline (case-insensitive, with
`headline` mapped to key `Headline`), otherwise to the list of non-blank
trimmed texts; fall back to the child's own non-blank text. -/
def viewerChild (o : List (String × XmpVal)) (child : XElem) :
    List (String × XmpVal) :=
  let tagname := afterFirstRBrace child.tag
  let lis := (descendants 1000 child).filter (fun e => e.tag = rdfQ "li")
  if !lis.isEmpty then
    let liTexts := ((lis.map (fun li => pyStrip li.text)).filter (fun t => t ≠ ""))
    match liTexts with
    | [t] =>
      if ["title", "description", "rights", "headline"].contains
          (String.mk (tagname.data.map lowerChar)) then
        strSet o (if tagname = "headline" then "Headline" else tagname) (.vs t)
      else strSet o tagname (.vl [t])
    | ts => strSet o tagname (.vl ts)
  else
    let t := pyStrip child.text
    if t ≠ "" then strSet o tagname (.vs t) else o

/-- One `rdf:Description` element in the viewer decoder: copy namespace-
stripped attributes, then handle each child. -/
def viewerDesc (o : List (String × XmpVal)) (desc : XElem) :
    List (String × XmpVal) :=
  let o1 := desc.attrib.foldl
    (fun acc kv => strSet acc (afterFirstRBrace kv.1) (.vs kv.2)) o
  desc.children.foldl viewerChild o1

/-- Embedding of the viewer's `parse_xmp_xml` (metadata_viewer.py, lines
196–230): on a parse failure return
`{"xmp_packet": <original>, "error": "xmp(parse): <message>"}`; otherwise
process every `rdf:Description` descendant in document order. -/
def parseXmpXml (s : String) : List (String × XmpVal) :=
  match xmlFromString s with
  | .error msg => [("xmp_packet", .vs s), ("error", .vs ("xmp(parse): " ++ msg))]
  | .ok root =>
    ((descendants 1000 root).filter (fun e => e.tag = rdfQ "Description")).foldl
      viewerDesc []

/-- Child-element handling of the handler's fallback packet parse
(metadata_handler.py, lines 459–476): like the viewer's but with the special
single-string set `('title', 'description', 'rights')` compared exactly (no
lower-casing, no headline mapping). -/
def handlerChild (o : List (String × XmpVal)) (child : XElem) :
    List (String × XmpVal) :=
  let tagname := afterFirstRBrace child.tag
  let lis := (descendants 1000 child).filter (fun e => e.tag = rdfQ "li")
  if !lis.isEmpty then
    let liTexts := ((lis.map (fun li => pyStrip li.text)).filter (fun t => t ≠ ""))
    match liTexts with
    | [t] =>
      if ["title", "description", "rights"].contains tagname then
        strSet o tagname (.vs t)
      else strSet o tagname (.vl [t])
    | ts => strSet o tagname (.vl ts)
  else
    let t := pyStrip child.text
    if t ≠ "" then strSet o tagname (.vs t) else o

/-- One `rdf:Description` element in the handler decoder. -/
def handlerDesc (o : List (String × XmpVal)) (desc : XElem) :
    List (String × XmpVal) :=
  let o1 := desc.attrib.foldl
    (fun acc kv => strSet acc (afterFirstRBrace kv.1) (.vs kv.2)) o
  desc.children.foldl handlerChild o1

/-- Embedding of the packet parse inside `MetadataHandler._read_xmp`'s
byte-scan fallback (metadata_handler.py, lines 446–478): on a parse failure
the whole result is replaced by `{'xmp_raw': packet_str[:500]}` — the first
500 characters under a different key, with no error entry. -/
def handlerParseXmp (s : String) : List (String × XmpVal) :=
  match xmlFromString s with
  | .error _ => [("xmp_raw", .vs (String.mk (s.data.take 500)))]
  | .ok root =>
    ((descendants 1000 root).filter (fun e => e.tag = rdfQ "Description")).foldl
      handlerDesc []

/-! ### Helper lemmas about the normalizer -/

theorem rvAll_imp (p q : RawValue → Bool) (hpq : ∀ v, p v = true → q v = true) :
    ∀ xs, rvAll p xs = true → rvAll q xs = true
  | .nil, _ => rfl
  | .cons v t, h => by
    simp only [rvAll, Bool.and_eq_true] at h ⊢
    exact ⟨hpq v h.1, rvAll_imp p q hpq t h.2⟩

theorem rvIsByte_isInt (v : RawValue) (h : rvIsByte v = true) : rvIsInt v = true := by
  cases v <;> simp_all [rvIsByte, rvIsInt]

theorem isPair2_shape (xs : RVList) (h : isPair2 xs = true) :
    ∃ n d, xs = .cons (.int n) (.cons (.int d) .nil) := by
  unfold isPair2 at h
  split at h
  · next n d => exact ⟨n, d, rfl⟩
  · exact absurd h (by simp)

theorem byteArrFinish_cases (cs : List Char) :
    (∃ s, byteArrFinish cs = .str s) ∨
    (∃ p q ps, byteArrFinish cs = .list (strsRVL (p :: q :: ps))) := by
  unfold byteArrFinish
  by_cases h : (cleanDecoded cs).length > 2
  · simp only [h, if_true]
    cases hp : splitParts (cleanDecoded cs).data with
    | nil => exact .inl ⟨cleanDecoded cs, rfl⟩
    | cons p rest =>
      cases rest with
      | nil => exact .inl ⟨p, rfl⟩
      | cons q ps => exact .inr ⟨p, q, ps, rfl⟩
  · simp only [h, if_false]
    exact .inl ⟨cleanDecoded cs, rfl⟩

theorem byteArrValue_cases (bs : List Nat) :
    (∃ s, byteArrValue bs = .str s) ∨
    (∃ p q ps, byteArrValue bs = .list (strsRVL (p :: q :: ps))) := by
  unfold byteArrValue
  cases utf16leDecode bs with
  | some cs => exact byteArrFinish_cases cs
  | none =>
    cases utf8Decode bs with
    | some cs => exact byteArrFinish_cases cs
    | none => exact byteArrFinish_cases (latin1Decode bs)

theorem rvLen_rvMap (f : RawValue → RawValue) : ∀ xs, rvLen (rvMap f xs) = rvLen xs
  | .nil => rfl
  | .cons v t => by simp [rvMap, rvLen, rvLen_rvMap f t]

theorem isPair2_cons_float (q : ℚ) (t : RVList) :
    isPair2 (.cons (.float q) t) = false := rfl

theorem pairsFloat : ∀ xs, noZeroDenL xs = true → rvAll rvIsPairElem xs = true →
    rvAll rvIsFloat (rvMap pairToFloat xs) = true
  | .nil, _, _ => rfl
  | .cons v t, hz, hp => by
    simp only [noZeroDenL, rvAll, Bool.and_eq_true] at hz hp
    obtain ⟨hzv, hzt⟩ := hz
    obtain ⟨hpv, hpt⟩ := hp
    have hv : rvIsFloat (pairToFloat v) = true := by
      cases v with
      | list ys =>
        simp only [rvIsPairElem] at hpv
        obtain ⟨n, d, rfl⟩ := isPair2_shape ys hpv
        simp only [noZeroDen, pairOkB, Bool.and_eq_true] at hzv
        have hd : d ≠ 0 := by simpa using hzv.1
        simp [pairToFloat, hd, rvIsFloat]
      | int n => simp [rvIsPairElem] at hpv
      | float q => simp [rvIsPairElem] at hpv
      | str s => simp [rvIsPairElem] at hpv
      | bytes bs => simp [rvIsPairElem] at hpv
      | dict d => simp [rvIsPairElem] at hpv
    simp [rvMap, rvAll, hv, pairsFloat t hzt hpt]

theorem pyRound8_third : pyRound8 ((1:ℚ)/3) = 33333333 / 100000000 := by
  have hfloor : ⌊(1:ℚ)/3 * 100000000⌋ = (33333333 : Int) := by
    rw [Int.floor_eq_iff]
    norm_num
  unfold pyRound8
  simp only [hfloor]
  norm_num

theorem pyRound8_zero : pyRound8 0 = 0 := by
  unfold pyRound8
  norm_num

theorem toQ_pairToFloat (n d : Int) : toQ (pairToFloat (mkPair n d)) = divOr0 n d := by
  unfold pairToFloat mkPair divOr0
  by_cases hd : d = 0
  · simp [hd, toQ]
  · simp [hd, toQ]

/-- C2 amended part: the rational-array branch on exactly three pairs. -/
theorem gps_collapse_amended (n1 d1 n2 d2 n3 d3 : Int) :
    normalizeValue (.list (.cons (mkPair n1 d1) (.cons (mkPair n2 d2)
        (.cons (mkPair n3 d3) .nil))))
      = .float (divOr0 n1 d1 + divOr0 n2 d2 / 60 + divOr0 n3 d3 / 3600) ∧
    normalizeValue (.list (.cons (mkPair 40 1) (.cons (mkPair 26 1)
        (.cons (mkPair 46 1) .nil))))
      = .float (40 + 26/60 + 46/3600) := by
  have hgen : ∀ a b c d e f : Int,
      normalizeValue (.list (.cons (mkPair a b) (.cons (mkPair c d)
        (.cons (mkPair e f) .nil))))
      = .float (divOr0 a b + divOr0 c d / 60 + divOr0 e f / 3600) := by
    intro a b c d e f
    have harr : isPairArr (.cons (mkPair a b) (.cons (mkPair c d)
        (.cons (mkPair e f) .nil))) = true := by
      simp [isPairArr, rvAll, rvIsPairElem, mkPair, isPair2, rvLen]
    have h1 : isPair2 (.cons (mkPair a b) (.cons (mkPair c d)
        (.cons (mkPair e f) .nil))) = false := rfl
    have h2 : isByteArr (.cons (mkPair a b) (.cons (mkPair c d)
        (.cons (mkPair e f) .nil))) = false := by
      simp [isByteArr, rvAll, rvIsByte, mkPair]
    rw [show normalizeValue (.list (.cons (mkPair a b) (.cons (mkPair c d)
        (.cons (mkPair e f) .nil)))) = ratArrayValue (.cons (mkPair a b)
        (.cons (mkPair c d) (.cons (mkPair e f) .nil))) from by
      simp [normalizeValue, h1, h2, harr]]
    show RawValue.float (toQ (pairToFloat (mkPair a b)) +
        toQ (pairToFloat (mkPair c d)) / 60 +
        toQ (pairToFloat (mkPair e f)) / 3600) = _
    rw [toQ_pairToFloat, toQ_pairToFloat, toQ_pairToFloat]
  refine ⟨hgen n1 d1 n2 d2 n3 d3, ?_⟩
  rw [hgen 40 1 26 1 46 1]
  simp only [divOr0]
  norm_num

/-- C2 counterexample: the code does not round components to 8 decimal
places before summation. -/
theorem gps_component_rounding_cex :
    normalizeValue (.list (.cons (mkPair 1 3) (.cons (mkPair 0 1)
        (.cons (mkPair 0 1) .nil)))) = .float ((1:ℚ)/3) ∧
    ((1:ℚ)/3) ≠ pyRound8 ((1:ℚ)/3) + pyRound8 ((0:ℚ)/1) / 60 + pyRound8 ((0:ℚ)/1) / 3600 := by
  constructor
  · rw [show normalizeValue (.list (.cons (mkPair 1 3) (.cons (mkPair 0 1)
        (.cons (mkPair 0 1) .nil)))) = .float ((1:ℚ)/3 + (0:ℚ)/1/60 + (0:ℚ)/1/3600) from rfl]
    norm_num
  · rw [show ((0:ℚ)/1) = 0 from by norm_num, pyRound8_zero, pyRound8_third]
    norm_num

/-- C1: with `purge_non_camera` true the EXIF encode phase builds a new IFD
map retaining in the 0th and Exif IFDs exactly the tags of the fixed camera
allow-lists (Make `0x010F` and Orientation `0x0112` are kept, MakerNote
`0x927C` is not in the Exif allow-list), copies the GPS IFD verbatim, and
drops the 1st (thumbnail) IFD entirely; an edit request with no fields makes
the encode phase exactly this purge. -/
theorem purge_keeps_camera_tags (m : IfdMap) (t : Nat) (v : RawValue) :
    ((t, v) ∈ (purgeNonCamera m).zeroth ↔ (t, v) ∈ m.zeroth ∧ t ∈ keep0th) ∧
    ((t, v) ∈ (purgeNonCamera m).exifIfd ↔ (t, v) ∈ m.exifIfd ∧ t ∈ keepExif) ∧
    (purgeNonCamera m).gps = m.gps ∧
    (purgeNonCamera m).first = [] ∧
    encodeExifPhase m { purge_non_camera := some true } = purgeNonCamera m ∧
    (0x010F : Nat) ∈ keep0th ∧ (0x0112 : Nat) ∈ keep0th ∧
    (0x927C : Nat) ∉ keepExif := by
  refine ⟨?_, ?_, rfl, rfl, rfl, by decide, by decide, by decide⟩
  · simp [purgeNonCamera, List.mem_filter]
  · simp [purgeNonCamera, List.mem_filter]

/-- C9: a missing `purge_non_camera` key defaults to a purging encode. -/
theorem purge_default_true (m : IfdMap) (u : EditRequest) :
    encodeExifPhase m { u with purge_non_camera := none } =
      encodeExifPhase m { u with purge_non_camera := some true } := rfl

/-- C10: `edit_metadata` returns `True` for every existing file, whatever the
phase outcomes; `False` exactly when the file is missing. -/
theorem edit_metadata_result (path : String) (ex xm : Except String Unit)
    (le : Option String) :
    (editMetadata path true ex xm le).1 = true ∧
    (editMetadata path false ex xm le).1 = false := by
  cases ex <;> cases xm <;> exact ⟨rfl, rfl⟩

/-- C5 amended: the viewer decoder preserves the whole packet and the parse
message on failure. -/
theorem xmp_parse_failure_map (s msg : String) (h : xmlFromString s = .error msg) :
    parseXmpXml s =
      [("xmp_packet", .vs s), ("error", .vs ("xmp(parse): " ++ msg))] := by
  simp [parseXmpXml, h]

theorem xmp_parse_failure_map_witness :
    xmlFromString "<bad xml" = .error "not well-formed (invalid token)" ∧
    parseXmpXml "<bad xml" =
      [("xmp_packet", .vs "<bad xml"),
       ("error", .vs ("xmp(parse): " ++ "not well-formed (invalid token)"))] :=
  ⟨rfl, xmp_parse_failure_map "<bad xml" "not well-formed (invalid token)" rfl⟩

/-- C5 counterexample: the handler decoder returns `{'xmp_raw': …}` instead,
truncated to 500 characters, with no error entry. -/
theorem handler_parse_failure_cex :
    handlerParseXmp "<bad xml" = [("xmp_raw", .vs "<bad xml")] ∧
    (handlerParseXmp "<bad xml").map Prod.fst = ["xmp_raw"] := by
  exact ⟨rfl, rfl⟩

/-- C8 counterexample: a pre-built creator list aborts the XMP packet build
with an `AttributeError` instead of producing `rdf:li` items. -/
theorem creator_list_raises_cex :
    xmpEncode { headline := some "T", creator := some (.l ["A"]), rights := some "C" }
      = .error creatorListMsg ∧
    xmpCreatorLines (.l ["A"]) = .error creatorListMsg := ⟨rfl, rfl⟩

/-- C8 amended: delimited strings are split/trimmed/filtered into one
`rdf:li` per item for both fields; a pre-built list works for `subject`
(blank items dropped, items not trimmed) but raises for `creator`. -/
theorem creator_subject_items_amended (c : String) (ls : List String)
    (hc : c ≠ "") (hls : ls ≠ []) :
    xmpCreatorLines (.s c)
      = .ok ["<dc:creator><rdf:Seq>" ++ liJoin (splitItems c) ++
          "</rdf:Seq></dc:creator>"] ∧
    xmpCreatorLines (.l ls) = .error creatorListMsg ∧
    xmpSubjectItems (.s c) = (splitItems c).map xmlEscape ∧
    xmpSubjectItems (.l ls) = (ls.filter (fun x => pyStrip x ≠ "")).map xmlEscape := by
  cases ls with
  | nil => exact absurd rfl hls
  | cons a t =>
    refine ⟨?_, ?_, ?_, ?_⟩
    · simp [xmpCreatorLines, hc]
    · simp [xmpCreatorLines]
    · simp [xmpSubjectItems, hc]
    · simp [xmpSubjectItems]

theorem creator_subject_items_amended_witness :
    xmpCreatorLines (.s "A, B")
      = .ok ["<dc:creator><rdf:Seq>" ++ liJoin (splitItems "A, B") ++
          "</rdf:Seq></dc:creator>"] ∧
    xmpCreatorLines (.l ["X"]) = .error creatorListMsg ∧
    xmpSubjectItems (.s "A, B") = (splitItems "A, B").map xmlEscape ∧
    xmpSubjectItems (.l ["X"]) = (["X"].filter (fun x => pyStrip x ≠ "")).map xmlEscape :=
  creator_subject_items_amended "A, B" ["X"] (by decide) (by decide)

set_option maxRecDepth 100000

/-- C4: encoding headline "T", creator "A", rights "C" and decoding the
packet recovers Headline (attribute), creator list and rights string. -/
theorem xmp_roundtrip_headline_creator_rights :
    (xmpEncode { headline := some "T", creator := some (.s "A"), rights := some "C" }).toOption.map parseXmpXml
      = some [("Headline", .vs "T"), ("creator", .vl ["A"]), ("rights", .vs "C")] := by
  rfl

end PhotoMeta

namespace PhotoMeta

theorem normalELB_strs : ∀ l : List String, normalELB (strsRVL l) = true
  | [] => rfl
  | p :: rest => by
    simp [strsRVL, normalELB, normalEB, normalELB_strs rest]

theorem normalEB_strs2 (p q : String) (ps : List String) :
    normalEB (.list (strsRVL (p :: q :: ps))) = true := by
  simp [normalEB, strsRVL, isPair2, isByteArr, isPairArr, rvAll, rvIsByte,
    rvIsPairElem, rvLen, normalELB_strs, normalELB]

theorem byteArrValue_normalE (bs : List Nat) :
    normalEB (byteArrValue bs) = true ∧
    (∀ n, byteArrValue bs ≠ .int n) ∧
    (∀ a b, byteArrValue bs ≠ .list (.cons (.int a) (.cons (.int b) .nil))) := by
  rcases byteArrValue_cases bs with ⟨s, hs⟩ | ⟨p, q, ps, hp⟩
  · rw [hs]
    refine ⟨rfl, ?_, ?_⟩
    · intro n h; cases h
    · intro a b h; cases h
  · rw [hp]
    refine ⟨normalEB_strs2 p q ps, ?_, ?_⟩
    · intro n h; cases h
    · intro a b h
      rw [show strsRVL (p :: q :: ps) = .cons (.str p) (strsRVL (q :: ps)) from rfl] at h
      injection h with h1
      injection h1 with h2 _
      cases h2

theorem rvIsFloat_normalEB (v : RawValue) (h : rvIsFloat v = true) :
    normalEB v = true := by
  cases v <;> simp_all [rvIsFloat, normalEB]

theorem normalELB_eq_rvAll : ∀ t, normalELB t = rvAll normalEB t
  | .nil => rfl
  | .cons v t => by simp [normalELB, rvAll, normalELB_eq_rvAll t]

theorem allFloat_list_normalE (a : RawValue) (t : RVList)
    (h : rvAll rvIsFloat (.cons a t) = true) : normalEB (.list (.cons a t)) = true := by
  simp only [rvAll, Bool.and_eq_true] at h
  obtain ⟨ha, ht⟩ := h
  cases a with
  | float q =>
    have hn : normalELB (RVList.cons (.float q) t) = true := by
      simp only [normalELB, Bool.and_eq_true]
      refine ⟨rfl, ?_⟩
      rw [normalELB_eq_rvAll]
      exact rvAll_imp rvIsFloat normalEB rvIsFloat_normalEB t ht
    simp [normalEB, isPair2_cons_float, isByteArr, isPairArr, rvAll, rvIsByte,
      rvIsPairElem, hn]
  | int n => simp [rvIsFloat] at ha
  | str s => simp [rvIsFloat] at ha
  | bytes bs => simp [rvIsFloat] at ha
  | list ys => simp [rvIsFloat] at ha
  | dict d => simp [rvIsFloat] at ha

theorem float_list_factsE (a : RawValue) (t : RVList)
    (h : rvAll rvIsFloat (.cons a t) = true) :
    normalEB (.list (.cons a t)) = true ∧
    (∀ n, RawValue.list (.cons a t) ≠ .int n) ∧
    (∀ x y, RawValue.list (.cons a t) ≠
      .list (.cons (.int x) (.cons (.int y) .nil))) := by
  refine ⟨allFloat_list_normalE a t h, ?_, ?_⟩
  · intro n hq; cases hq
  · intro x y hq
    injection hq with h1
    injection h1 with h2 _
    simp only [rvAll, Bool.and_eq_true] at h
    rw [h2] at h
    simp [rvIsFloat] at h

theorem ratArrayValue_normalE (xs : RVList) (hz : noZeroDenL xs = true)
    (hp : rvAll rvIsPairElem xs = true) (hne : rvLen xs ≠ 0) :
    normalEB (ratArrayValue xs) = true ∧
    (∀ n, ratArrayValue xs ≠ .int n) ∧
    (∀ a b, ratArrayValue xs ≠ .list (.cons (.int a) (.cons (.int b) .nil))) := by
  have hf : rvAll rvIsFloat (rvMap pairToFloat xs) = true := pairsFloat xs hz hp
  have hlen : rvLen (rvMap pairToFloat xs) = rvLen xs := rvLen_rvMap pairToFloat xs
  cases hfs : rvMap pairToFloat xs with
  | nil => rw [hfs] at hlen; exact absurd hlen.symm hne
  | cons a t =>
    rw [hfs] at hf
    cases t with
    | nil =>
      unfold ratArrayValue
      rw [hfs]
      exact float_list_factsE a .nil hf
    | cons b t2 =>
      cases t2 with
      | nil =>
        unfold ratArrayValue
        rw [hfs]
        exact float_list_factsE a (.cons b .nil) hf
      | cons c t3 =>
        cases t3 with
        | nil =>
          unfold ratArrayValue
          rw [hfs]
          refine ⟨rfl, ?_, ?_⟩
          · intro n hq; cases hq
          · intro x y hq; cases hq
        | cons d t4 =>
          unfold ratArrayValue
          rw [hfs]
          exact float_list_factsE a (.cons b (.cons c (.cons d t4))) hf

end PhotoMeta

namespace PhotoMeta

mutual
/-- Python key equality is symmetric. -/
theorem pyEq_symm : ∀ a b, pyEq a b = pyEq b a
  | .int a, .int b => by simp [pyEq, decide_eq_decide, eq_comm]
  | .int a, .float q => by simp [pyEq, decide_eq_decide, eq_comm]
  | .float q, .int a => by simp [pyEq, decide_eq_decide, eq_comm]
  | .float p, .float q => by simp [pyEq, decide_eq_decide, eq_comm]
  | .str s, .str t => by simp [pyEq, decide_eq_decide, eq_comm]
  | .bytes a, .bytes b => by simp [pyEq, decide_eq_decide, eq_comm]
  | .list xs, .list ys => by simp [pyEq, pyEqL_symm xs ys]
  | .int _, .str _ => rfl
  | .int _, .bytes _ => rfl
  | .int _, .list _ => rfl
  | .int _, .dict _ => rfl
  | .float _, .str _ => rfl
  | .float _, .bytes _ => rfl
  | .float _, .list _ => rfl
  | .float _, .dict _ => rfl
  | .str _, .int _ => rfl
  | .str _, .float _ => rfl
  | .str _, .bytes _ => rfl
  | .str _, .list _ => rfl
  | .str _, .dict _ => rfl
  | .bytes _, .int _ => rfl
  | .bytes _, .float _ => rfl
  | .bytes _, .str _ => rfl
  | .bytes _, .list _ => rfl
  | .bytes _, .dict _ => rfl
  | .list _, .int _ => rfl
  | .list _, .float _ => rfl
  | .list _, .str _ => rfl
  | .list _, .bytes _ => rfl
  | .list _, .dict _ => rfl
  | .dict _, .int _ => rfl
  | .dict _, .float _ => rfl
  | .dict _, .str _ => rfl
  | .dict _, .bytes _ => rfl
  | .dict _, .list _ => rfl
  | .dict _, .dict _ => rfl
/-- Elementwise symmetry. -/
theorem pyEqL_symm : ∀ xs ys, pyEqL xs ys = pyEqL ys xs
  | .nil, .nil => rfl
  | .cons a as, .cons b bs => by
    simp [pyEqL, pyEq_symm a b, pyEqL_symm as bs]
  | .nil, .cons _ _ => rfl
  | .cons _ _, .nil => rfl
end

theorem hasKey_dappend : ∀ (x y : RVDict) (k : RawValue),
    hasKey (dappend x y) k = (hasKey x k || hasKey y k)
  | .dnil, y, k => rfl
  | .dcons k0 v0 t, y, k => by
    simp [dappend, hasKey, hasKey_dappend t y k, Bool.or_assoc]

theorem dappend_dnil : ∀ x : RVDict, dappend x .dnil = x
  | .dnil => rfl
  | .dcons k v t => by simp [dappend, dappend_dnil t]

theorem dappend_assoc : ∀ x y z : RVDict,
    dappend (dappend x y) z = dappend x (dappend y z)
  | .dnil, _, _ => rfl
  | .dcons k v t, y, z => by simp [dappend, dappend_assoc t y z]

/-- Inserting a fresh key appends the entry at the end. -/
theorem pyDictSet_fresh : ∀ (acc : RVDict) (k v : RawValue),
    hasKey acc k = false →
    pyDictSet acc k v = dappend acc (.dcons k v .dnil)
  | .dnil, _, _, _ => rfl
  | .dcons k0 v0 t, k, v, h => by
    simp only [hasKey, Bool.or_eq_false_iff] at h
    simp [pyDictSet, h.1, dappend, pyDictSet_fresh t k v h.2]

/-- A key present after an insertion was present before or is the inserted one. -/
theorem hasKey_pyDictSet : ∀ (t : RVDict) (k v k0 : RawValue),
    hasKey (pyDictSet t k v) k0 = true →
    hasKey t k0 = true ∨ pyEq k k0 = true
  | .dnil, k, v, k0, h => by
    simp only [pyDictSet, hasKey, Bool.or_eq_true] at h
    rcases h with h | h
    · exact .inr h
    · simp at h
  | .dcons k1 v1 t1, k, v, k0, h => by
    by_cases hq : pyEq k1 k = true
    · simp only [pyDictSet, hq, if_true, hasKey] at h
      exact .inl h
    · simp only [pyDictSet, hq, if_false, hasKey, Bool.or_eq_true] at h
      rcases h with h | h
      · exact .inl (by simp [hasKey, h])
      · rcases hasKey_pyDictSet t1 k v k0 h with h2 | h2
        · exact .inl (by simp [hasKey, h2])
        · exact .inr h2

/-- Python assignment preserves the output-dict invariant: hashable normal
distinct keys and normal values. -/
theorem pyDictSet_normal : ∀ (acc : RVDict) (k v : RawValue),
    normalEDB acc = true → pyHashableB k = true → normalEB k = true →
    normalEB v = true → normalEDB (pyDictSet acc k v) = true
  | .dnil, k, v, _, hh, hk, hv => by
    simp [pyDictSet, normalEDB, hh, hk, hv, hasKey]
  | .dcons k0 v0 t, k, v, hacc, hh, hk, hv => by
    simp only [normalEDB, Bool.and_eq_true] at hacc
    obtain ⟨⟨⟨⟨h1, h2⟩, h3⟩, h4⟩, h5⟩ := hacc
    by_cases hq : pyEq k0 k = true
    · simp only [pyDictSet, hq, if_true]
      simp [normalEDB, h1, h2, hv, h4, h5]
    · simp only [pyDictSet, hq, if_false]
      have h4' : hasKey (pyDictSet t k v) k0 = false := by
        by_contra hB
        rw [Bool.not_eq_false] at hB
        rcases hasKey_pyDictSet t k v k0 hB with h | h
        · simp [h] at h4
        · rw [pyEq_symm] at h; exact hq h
      simp [normalEDB, h1, h2, h3, h4', pyDictSet_normal t k v h5 hh hk hv]

/-- Inserting normalized hashable entries preserves the invariant. -/
theorem insertsPy_normal : ∀ (es acc : RVDict),
    normalEDB acc = true → entriesOkB es = true →
    normalEDB (insertsPy acc es) = true
  | .dnil, acc, hacc, _ => hacc
  | .dcons k v t, acc, hacc, hes => by
    simp only [entriesOkB, Bool.and_eq_true] at hes
    obtain ⟨⟨⟨h1, h2⟩, h3⟩, h4⟩ := hes
    exact insertsPy_normal t (pyDictSet acc k v)
      (pyDictSet_normal acc k v hacc h1 h2 h3) h4

/-- In a dict satisfying the invariant, the key of a later entry is absent
from the earlier entries. -/
theorem normalEDB_fresh : ∀ (acc : RVDict) (k v : RawValue) (t : RVDict),
    normalEDB (dappend acc (.dcons k v t)) = true → hasKey acc k = false
  | .dnil, _, _, _, _ => rfl
  | .dcons k0 v0 t0, k, v, t, h => by
    simp only [dappend, normalEDB, Bool.and_eq_true] at h
    obtain ⟨⟨⟨⟨_, _⟩, _⟩, h4⟩, h5⟩ := h
    have hne : pyEq k0 k = false := by
      rw [hasKey_dappend, hasKey] at h4
      by_contra hB
      rw [Bool.not_eq_false] at hB
      rw [pyEq_symm] at hB
      simp [hB] at h4
    simp [hasKey, hne, normalEDB_fresh t0 k v t h5]

/-- Re-inserting an entry sequence that already satisfies the full invariant
(relative to the accumulator) reproduces it unchanged. -/
theorem insertsPy_extend : ∀ (d acc : RVDict),
    normalEDB (dappend acc d) = true → insertsPy acc d = dappend acc d
  | .dnil, acc, _ => (dappend_dnil acc).symm
  | .dcons k v t, acc, h => by
    have hfresh : hasKey acc k = false := normalEDB_fresh acc k v t h
    rw [insertsPy, pyDictSet_fresh acc k v hfresh]
    have hre : dappend (dappend acc (.dcons k v .dnil)) t
        = dappend acc (.dcons k v t) := by
      rw [dappend_assoc]
      rfl
    rw [insertsPy_extend t (dappend acc (.dcons k v .dnil)) (by rw [hre]; exact h), hre]

end PhotoMeta

namespace PhotoMeta

theorem normalizeListE_cons_inv (v : RawValue) (t : RVList) (ys : RVList)
    (h : normalizeListE (.cons v t) = .ok ys) :
    ∃ nv nt, normalizeValueE v = .ok nv ∧ normalizeListE t = .ok nt ∧
      ys = .cons nv nt := by
  unfold normalizeListE at h
  cases hv : normalizeValueE v with
  | error e => rw [hv] at h; cases h
  | ok nv =>
    rw [hv] at h
    cases ht : normalizeListE t with
    | error e => rw [ht] at h; cases h
    | ok nt =>
      rw [ht] at h
      injection h with h1
      exact ⟨nv, nt, rfl, rfl, h1.symm⟩

mutual
/-- On dict-free values the fallible normalizer never raises and agrees with
the successful-path normalizer. -/
theorem agreeV : ∀ v, dictFreeB v = true →
    normalizeValueE v = .ok (normalizeValue v)
  | .int _, _ => rfl
  | .float _, _ => rfl
  | .str _, _ => rfl
  | .bytes _, _ => rfl
  | .dict _, h => by simp [dictFreeB] at h
  | .list xs, h => by
    simp only [dictFreeB] at h
    by_cases h1 : isPair2 xs = true
    · simp [normalizeValueE, normalizeValue, h1]
    · by_cases h2 : isByteArr xs = true
      · simp [normalizeValueE, normalizeValue, h1, h2]
      · by_cases h3 : isPairArr xs = true
        · simp [normalizeValueE, normalizeValue, h1, h2, h3]
        · simp [normalizeValueE, normalizeValue, h1, h2, h3, agreeL xs h]
/-- List version of `agreeV`. -/
theorem agreeL : ∀ xs, dictFreeLB xs = true →
    normalizeListE xs = .ok (normalizeList xs)
  | .nil, _ => rfl
  | .cons v t, h => by
    simp only [dictFreeLB, Bool.and_eq_true] at h
    simp [normalizeListE, normalizeList, agreeV v h.1, agreeL t h.2]
end

end PhotoMeta

namespace PhotoMeta

mutual
/-- Values in normal form are fixed points of the fallible normalizer. -/
theorem fixEV : ∀ (v : RawValue), normalEB v = true → normalizeValueE v = .ok v
  | .int _, _ => rfl
  | .float _, _ => rfl
  | .str _, _ => rfl
  | .bytes _, h => by simp [normalEB] at h
  | .dict d, h => by
    simp only [normalEB] at h
    have hes : normalizeEntriesE d = .ok d := fixED d h
    have hins : insertsPy .dnil d = d := insertsPy_extend d .dnil h
    simp [normalizeValueE, hes, hins]
  | .list xs, h => by
    simp only [normalEB, Bool.and_eq_true, Bool.not_eq_true'] at h
    obtain ⟨⟨⟨h1, h2⟩, h3⟩, h4⟩ := h
    simp [normalizeValueE, h1, h2, h3, fixEL xs h4]
/-- List version of `fixEV`. -/
theorem fixEL : ∀ (xs : RVList), normalELB xs = true → normalizeListE xs = .ok xs
  | .nil, _ => rfl
  | .cons v t, h => by
    simp only [normalELB, Bool.and_eq_true] at h
    simp [normalizeListE, fixEV v h.1, fixEL t h.2]
/-- Entries version of `fixEV`: the entry pass reproduces a dict whose keys
are hashable and whose keys and values are normal. -/
theorem fixED : ∀ (d : RVDict), normalEDB d = true → normalizeEntriesE d = .ok d
  | .dnil, _ => rfl
  | .dcons k v t, h => by
    simp only [normalEDB, Bool.and_eq_true] at h
    obtain ⟨⟨⟨⟨h1, h2⟩, h3⟩, _⟩, h5⟩ := h
    have hk := fixEV k h2
    have hv := fixEV v h3
    have ht := fixED t h5
    cases k with
    | list ys => simp [pyHashableB] at h1
    | dict dd => simp [pyHashableB] at h1
    | int n => simp [normalizeEntriesE, hk, hv, ht]
    | float q => simp [normalizeEntriesE, hk, hv, ht]
    | str s => simp [normalizeEntriesE, hk, hv, ht]
    | bytes bs => simp [normalizeEntriesE, hk, hv, ht]
end

end PhotoMeta

namespace PhotoMeta

mutual
/-- When the fallible normalizer succeeds on a value without zero-denominator
pairs, the result is a normal form, is an integer only if the input was, and
is never a two-integer list. -/
theorem keepEV : ∀ (v w : RawValue), noZeroDen v = true →
    normalizeValueE v = .ok w →
    normalEB w = true ∧
    (∀ n, w = .int n → v = .int n) ∧
    (∀ a b, w ≠ .list (.cons (.int a) (.cons (.int b) .nil)))
  | .int n, w, _, hw => by
    have hw' : RawValue.int n = w := by injection hw
    subst hw'
    refine ⟨rfl, ?_, ?_⟩
    · intro m h; exact h
    · intro a b h; cases h
  | .float q, w, _, hw => by
    have hw' : RawValue.float q = w := by injection hw
    subst hw'
    refine ⟨rfl, ?_, ?_⟩
    · intro m h; cases h
    · intro a b h; cases h
  | .str s, w, _, hw => by
    have hw' : RawValue.str s = w := by injection hw
    subst hw'
    refine ⟨rfl, ?_, ?_⟩
    · intro m h; cases h
    · intro a b h; cases h
  | .bytes bs, w, _, hw => by
    have hw' : RawValue.str (bytesValue bs) = w := by injection hw
    subst hw'
    refine ⟨rfl, ?_, ?_⟩
    · intro m h; cases h
    · intro a b h; cases h
  | .dict d, w, h, hw => by
    simp only [noZeroDen] at h
    cases hes : normalizeEntriesE d with
    | error e =>
      rw [show normalizeValueE (.dict d) = .error e from by
        simp [normalizeValueE, hes]] at hw
      cases hw
    | ok es =>
      rw [show normalizeValueE (.dict d) = .ok (.dict (insertsPy .dnil es)) from by
        simp [normalizeValueE, hes]] at hw
      have hw' : RawValue.dict (insertsPy .dnil es) = w := by injection hw
      subst hw'
      have hok : entriesOkB es = true := keepED d es h hes
      refine ⟨?_, ?_, ?_⟩
      · show normalEDB (insertsPy .dnil es) = true
        exact insertsPy_normal es .dnil rfl hok
      · intro m hq; cases hq
      · intro a b hq; cases hq
  | .list xs, w, h, hw => by
    simp only [noZeroDen, Bool.and_eq_true] at h
    obtain ⟨hpo, hl⟩ := h
    by_cases h1 : isPair2 xs = true
    · obtain ⟨n, d, rfl⟩ := isPair2_shape xs h1
      have hd : d ≠ 0 := by
        simp only [pairOkB] at hpo
        simpa using hpo
      rw [show normalizeValueE (.list (.cons (.int n) (.cons (.int d) .nil)))
          = .ok (.float (pyRound8 ((n : ℚ) / (d : ℚ)))) from by
        simp [normalizeValueE, h1, pairValue, hd]] at hw
      have hw' : RawValue.float (pyRound8 ((n : ℚ) / (d : ℚ))) = w := by injection hw
      subst hw'
      refine ⟨rfl, ?_, ?_⟩
      · intro m hq; cases hq
      · intro a b hq; cases hq
    · by_cases h2 : isByteArr xs = true
      · rw [show normalizeValueE (.list xs) = .ok (byteArrValue (rvToBytes xs)) from by
          simp [normalizeValueE, h1, h2]] at hw
        have hw' : byteArrValue (rvToBytes xs) = w := by injection hw
        subst hw'
        obtain ⟨ha, hb, hc⟩ := byteArrValue_normalE (rvToBytes xs)
        exact ⟨ha, fun n hq => absurd hq (hb n), hc⟩
      · by_cases h3 : isPairArr xs = true
        · rw [show normalizeValueE (.list xs) = .ok (ratArrayValue xs) from by
            simp [normalizeValueE, h1, h2, h3]] at hw
          have hw' : ratArrayValue xs = w := by injection hw
          subst hw'
          have h3' := h3
          simp only [isPairArr, Bool.and_eq_true] at h3'
          have hne : rvLen xs ≠ 0 := by
            intro hz
            simp [hz] at h3'
          obtain ⟨ha, hb, hc⟩ := ratArrayValue_normalE xs hl h3'.2 hne
          exact ⟨ha, fun n hq => absurd hq (hb n), hc⟩
        · cases hys : normalizeListE xs with
          | error e =>
            rw [show normalizeValueE (.list xs) = .error e from by
              simp [normalizeValueE, h1, h2, h3, hys]] at hw
            cases hw
          | ok ys =>
            rw [show normalizeValueE (.list xs) = .ok (.list ys) from by
              simp [normalizeValueE, h1, h2, h3, hys]] at hw
            have hw' : RawValue.list ys = w := by injection hw
            subst hw'
            obtain ⟨ha, hb, hc⟩ := keepEL xs ys hl hys
            have hpf : isPair2 ys = false := by
              by_contra hP
              rw [Bool.not_eq_false] at hP
              obtain ⟨a, b, hys'⟩ := isPair2_shape _ hP
              have hint : rvAll rvIsInt ys = true := by rw [hys']; rfl
              have hyx := hb hint
              rw [hyx] at hP
              exact absurd hP (by simp [h1])
            have hbf : isByteArr ys = false := by
              by_contra hB
              rw [Bool.not_eq_false] at hB
              simp only [isByteArr, Bool.and_eq_true] at hB
              have hint : rvAll rvIsInt ys = true :=
                rvAll_imp rvIsByte rvIsInt rvIsByte_isInt _ hB.2
              have hyx := hb hint
              rw [hyx] at hB
              have : isByteArr xs = true := by
                simp [isByteArr, Bool.and_eq_true, hB.1, hB.2, hyx]
              exact absurd this (by simp [h2])
            have hpaf : isPairArr ys = false := by
              by_contra hA
              rw [Bool.not_eq_false] at hA
              simp only [isPairArr, Bool.and_eq_true] at hA
              have hnil := hc hA.2
              subst hnil
              have hysnil : RVList.nil = ys := by injection hys
              rw [← hysnil] at hA
              simp [rvLen] at hA
            refine ⟨?_, ?_, ?_⟩
            · simp only [normalEB, hpf, hbf, hpaf, ha, Bool.not_false,
                Bool.and_true, Bool.true_and, Bool.and_self]
            · intro m hq; cases hq
            · intro a b hq
              injection hq with h5
              have hint : rvAll rvIsInt ys = true := by rw [h5]; rfl
              have hyx := hb hint
              rw [hyx] at h5
              rw [h5] at h1
              exact h1 rfl
/-- List version of `keepEV`. -/
theorem keepEL : ∀ (xs ys : RVList), noZeroDenL xs = true →
    normalizeListE xs = .ok ys →
    normalELB ys = true ∧
    (rvAll rvIsInt ys = true → ys = xs) ∧
    (rvAll rvIsPairElem ys = true → xs = .nil)
  | .nil, ys, _, hys => by
    have hy : RVList.nil = ys := by injection hys
    subst hy
    exact ⟨rfl, fun _ => rfl, fun _ => rfl⟩
  | .cons v t, ys, h, hys => by
    simp only [noZeroDenL, Bool.and_eq_true] at h
    obtain ⟨hv, ht⟩ := h
    obtain ⟨nv, nt, hnv, hnt, rfl⟩ := normalizeListE_cons_inv v t ys hys
    obtain ⟨hv1, hv2, hv3⟩ := keepEV v nv hv hnv
    obtain ⟨ht1, ht2, ht3⟩ := keepEL t nt ht hnt
    refine ⟨?_, ?_, ?_⟩
    · simp [normalELB, hv1, ht1]
    · intro hall
      simp only [rvAll, Bool.and_eq_true] at hall
      obtain ⟨ha, hbAll⟩ := hall
      have hex : ∃ n, nv = .int n := by
        cases hnv' : nv with
        | int n => exact ⟨n, rfl⟩
        | float q => rw [hnv'] at ha; simp [rvIsInt] at ha
        | str s => rw [hnv'] at ha; simp [rvIsInt] at ha
        | bytes b => rw [hnv'] at ha; simp [rvIsInt] at ha
        | list l => rw [hnv'] at ha; simp [rvIsInt] at ha
        | dict dd => rw [hnv'] at ha; simp [rvIsInt] at ha
      obtain ⟨n, hn⟩ := hex
      subst hn
      have hveq : v = .int n := hv2 n rfl
      subst hveq
      rw [ht2 hbAll]
    · intro hall
      exfalso
      simp only [rvAll, Bool.and_eq_true] at hall
      obtain ⟨ha, _⟩ := hall
      cases hnv' : nv with
      | list zs =>
        rw [hnv'] at ha
        simp only [rvIsPairElem] at ha
        obtain ⟨a, b, rfl⟩ := isPair2_shape zs ha
        exact hv3 a b hnv'
      | int n => rw [hnv'] at ha; simp [rvIsPairElem] at ha
      | float q => rw [hnv'] at ha; simp [rvIsPairElem] at ha
      | str s => rw [hnv'] at ha; simp [rvIsPairElem] at ha
      | bytes b => rw [hnv'] at ha; simp [rvIsPairElem] at ha
      | dict dd => rw [hnv'] at ha; simp [rvIsPairElem] at ha
/-- Entries version of `keepEV`: a successful entry pass yields hashable,
normal keys and normal values. -/
theorem keepED : ∀ (d es : RVDict), noZeroDenD d = true →
    normalizeEntriesE d = .ok es → entriesOkB es = true
  | .dnil, es, _, hes => by
    have hy : RVDict.dnil = es := by injection hes
    subst hy
    rfl
  | .dcons k v t, es, h, hes => by
    simp only [noZeroDenD, Bool.and_eq_true] at h
    obtain ⟨⟨hk, hv⟩, ht⟩ := h
    cases hnk : normalizeValueE k with
    | error e =>
      rw [show normalizeEntriesE (.dcons k v t) = .error e from by
        simp [normalizeEntriesE, hnk]] at hes
      cases hes
    | ok nk =>
      cases hnv : normalizeValueE v with
      | error e =>
        rw [show normalizeEntriesE (.dcons k v t) = .error e from by
          simp [normalizeEntriesE, hnk, hnv]] at hes
        cases hes
      | ok nv =>
        obtain ⟨hk1, _, _⟩ := keepEV k nk hk hnk
        obtain ⟨hv1, _, _⟩ := keepEV v nv hv hnv
        cases hnk' : nk with
        | list zs =>
          rw [show normalizeEntriesE (.dcons k v t) = .error typeErrListMsg from by
            simp [normalizeEntriesE, hnk, hnv, hnk']] at hes
          cases hes
        | dict dd =>
          rw [show normalizeEntriesE (.dcons k v t) = .error typeErrDictMsg from by
            simp [normalizeEntriesE, hnk, hnv, hnk']] at hes
          cases hes
        | bytes bs =>
          rw [hnk'] at hk1
          simp [normalEB] at hk1
        | int n =>
          cases hnt : normalizeEntriesE t with
          | error e =>
            rw [show normalizeEntriesE (.dcons k v t) = .error e from by
              simp [normalizeEntriesE, hnk, hnv, hnk', hnt]] at hes
            cases hes
          | ok nt =>
            rw [show normalizeEntriesE (.dcons k v t) = .ok (.dcons (.int n) nv nt) from by
              simp [normalizeEntriesE, hnk, hnv, hnk', hnt]] at hes
            have hy : RVDict.dcons (.int n) nv nt = es := by injection hes
            subst hy
            rw [hnk'] at hk1
            simp [entriesOkB, pyHashableB, hk1, hv1, keepED t nt ht hnt]
        | float q =>
          cases hnt : normalizeEntriesE t with
          | error e =>
            rw [show normalizeEntriesE (.dcons k v t) = .error e from by
              simp [normalizeEntriesE, hnk, hnv, hnk', hnt]] at hes
            cases hes
          | ok nt =>
            rw [show normalizeEntriesE (.dcons k v t) = .ok (.dcons (.float q) nv nt) from by
              simp [normalizeEntriesE, hnk, hnv, hnk', hnt]] at hes
            have hy : RVDict.dcons (.float q) nv nt = es := by injection hes
            subst hy
            rw [hnk'] at hk1
            simp [entriesOkB, pyHashableB, hk1, hv1, keepED t nt ht hnt]
        | str s =>
          cases hnt : normalizeEntriesE t with
          | error e =>
            rw [show normalizeEntriesE (.dcons k v t) = .error e from by
              simp [normalizeEntriesE, hnk, hnv, hnk', hnt]] at hes
            cases hes
          | ok nt =>
            rw [show normalizeEntriesE (.dcons k v t) = .ok (.dcons (.str s) nv nt) from by
              simp [normalizeEntriesE, hnk, hnv, hnk', hnt]] at hes
            have hy : RVDict.dcons (.str s) nv nt = es := by injection hes
            subst hy
            rw [hnk'] at hk1
            simp [entriesOkB, pyHashableB, hk1, hv1, keepED t nt ht hnt]
end

end PhotoMeta

namespace PhotoMeta

theorem metaEntries_keys : ∀ (d es : RVDict),
    normalizeMetaEntriesE d = .ok es →
    dictKeys es = (dictKeys d).map stripKeyTop
  | .dnil, es, h => by
    have hy : RVDict.dnil = es := by injection h
    subst hy
    rfl
  | .dcons k v t, es, h => by
    cases hnv : normalizeValueE v with
    | error e =>
      rw [show normalizeMetaEntriesE (.dcons k v t) = .error e from by
        simp [normalizeMetaEntriesE, hnv]] at h
      cases h
    | ok nv =>
      cases hnt : normalizeMetaEntriesE t with
      | error e =>
        rw [show normalizeMetaEntriesE (.dcons k v t) = .error e from by
          simp [normalizeMetaEntriesE, hnv, hnt]] at h
        cases h
      | ok nt =>
        rw [show normalizeMetaEntriesE (.dcons k v t)
            = .ok (.dcons (stripKeyTop k) nv nt) from by
          simp [normalizeMetaEntriesE, hnv, hnt]] at h
        have hy : RVDict.dcons (stripKeyTop k) nv nt = es := by injection h
        subst hy
        simp [dictKeys, metaEntries_keys t nt hnt]

theorem pyDictSet_keys : ∀ (acc : RVDict) (k v k0 : RawValue),
    k0 ∈ dictKeys (pyDictSet acc k v) → k0 ∈ dictKeys acc ∨ k0 = k
  | .dnil, k, v, k0, h => by
    simp only [pyDictSet, dictKeys, List.mem_singleton] at h
    exact .inr h
  | .dcons k1 v1 t, k, v, k0, h => by
    by_cases hq : pyEq k1 k = true
    · simp only [pyDictSet, hq, if_true] at h
      exact .inl h
    · simp only [pyDictSet, hq, if_false, dictKeys, List.mem_cons] at h
      rcases h with h | h
      · exact .inl (by simp [dictKeys, h])
      · rcases pyDictSet_keys t k v k0 h with h2 | h2
        · exact .inl (by simp [dictKeys, h2])
        · exact .inr h2

theorem insertsPy_keys : ∀ (es acc : RVDict) (k0 : RawValue),
    k0 ∈ dictKeys (insertsPy acc es) → k0 ∈ dictKeys acc ∨ k0 ∈ dictKeys es
  | .dnil, _, _, h => .inl h
  | .dcons k v t, acc, k0, h => by
    simp only [insertsPy] at h
    rcases insertsPy_keys t (pyDictSet acc k v) k0 h with h2 | h2
    · rcases pyDictSet_keys acc k v k0 h2 with h3 | h3
      · exact .inl h3
      · exact .inr (by simp [dictKeys, h3])
    · exact .inr (by simp [dictKeys, h2])

/-- C7 counterexample: the tuple `(65, 66, 59, 67, 68)` normalizes to the
list `['AB', 'CD']`, and using it as a dict key makes the unguarded dict
comprehension raise `TypeError: unhashable type: 'list'` — `_normalize_value`
is not total. -/
theorem normalize_raises_typeerror_cex :
    normalizeValueE (.list (.cons (.int 65) (.cons (.int 66) (.cons (.int 59)
        (.cons (.int 67) (.cons (.int 68) .nil))))))
      = .ok (.list (strsRVL ["AB", "CD"])) ∧
    normalizeValueE (.dict (.dcons (.list (.cons (.int 65) (.cons (.int 66)
        (.cons (.int 59) (.cons (.int 67) (.cons (.int 68) .nil))))))
        (.int 1) .dnil))
      = .error typeErrListMsg := ⟨rfl, rfl⟩

/-- C7 (amended): normalization never signals an error on dict-free values —
there it agrees with the total successful-path normalizer — and scalar
shapes pass through unchanged, with the bytes branch always producing a
string (the Latin-1 fallback is total).  Only the unguarded dict
comprehension can raise. -/
theorem normalize_dictfree_total :
    (∀ v, dictFreeB v = true → normalizeValueE v = .ok (normalizeValue v)) ∧
    (∀ n : Int, normalizeValueE (.int n) = .ok (.int n)) ∧
    (∀ q : ℚ, normalizeValueE (.float q) = .ok (.float q)) ∧
    (∀ s : String, normalizeValueE (.str s) = .ok (.str s)) ∧
    (∀ bs : List Nat, normalizeValueE (.bytes bs) = .ok (.str (bytesValue bs))) :=
  ⟨agreeV, fun _ => rfl, fun _ => rfl, fun _ => rfl, fun _ => rfl⟩

/-- C3 counterexample: a rational array of two zero-denominator pairs
normalizes (successfully) to the integer list `[0, 0]`, which re-normalizes
to the scalar `0` — idempotence fails even where no error occurs. -/
theorem normalize_not_idempotent_cex :
    normalizeValueE (.list (.cons (mkPair 0 0) (.cons (mkPair 0 0) .nil)))
      = .ok (.list (.cons (.int 0) (.cons (.int 0) .nil))) ∧
    normalizeValueE (.list (.cons (.int 0) (.cons (.int 0) .nil))) = .ok (.int 0) ∧
    RawValue.int 0 ≠ .list (.cons (.int 0) (.cons (.int 0) .nil)) := by
  refine ⟨rfl, rfl, ?_⟩
  intro hq
  cases hq

/-- C3 (amended): on raw values with no zero-denominator rational pair,
normalization is idempotent whenever it succeeds: if `_normalize_value`
returns `w` (instead of raising `TypeError` from the dict branch),
re-normalizing `w` returns `w` again. -/
theorem normalize_idempotent_amended (v w : RawValue)
    (h1 : noZeroDen v = true) (h2 : normalizeValueE v = .ok w) :
    normalizeValueE w = .ok w :=
  fixEV w (keepEV v w h1 h2).1

theorem normalize_idempotent_amended_witness :
    noZeroDen (.dict (.dcons (.str "k") (.bytes [104, 105, 106]) .dnil)) = true ∧
    normalizeValueE (.dict (.dcons (.str "k") (.bytes [104, 105, 106]) .dnil))
      = .ok (.dict (.dcons (.str "k") (.str "hij") .dnil)) ∧
    normalizeValueE (.dict (.dcons (.str "k") (.str "hij") .dnil))
      = .ok (.dict (.dcons (.str "k") (.str "hij") .dnil)) :=
  ⟨rfl, rfl, normalize_idempotent_amended
    (.dict (.dcons (.str "k") (.bytes [104, 105, 106]) .dnil))
    (.dict (.dcons (.str "k") (.str "hij") .dnil)) rfl rfl⟩

/-- C6 counterexample: a nested dict key keeps its namespace prefix — the
nested map is normalized by `_normalize_value`, whose dict branch leaves
string keys unchanged. -/
theorem nested_key_namespace_cex :
    normalizeMetadataDictE (.dcons (.str "t")
        (.dict (.dcons (.str "\x7bns\x7db") (.int 1) .dnil)) .dnil)
      = .ok (.dcons (.str "t")
        (.dict (.dcons (.str "\x7bns\x7db") (.int 1) .dnil)) .dnil) ∧
    ("\x7bns\x7db".data.contains rbrace = true) ∧
    ("\x7bns\x7db" : String) ≠ "b" :=
  ⟨rfl, by decide, by decide⟩

/-- C6 (amended): when `_normalize_metadata_dict` returns, every top-level
key of the result is some input key reduced by the top-level rule — the
content after the first right brace for a string containing one, the key
unchanged otherwise — with colliding stripped keys merged by dict
assignment; nested map keys are normalized as ordinary values, and strings
pass through unchanged there. -/
theorem dict_key_namespace_amended (d r : RVDict)
    (h : normalizeMetadataDictE d = .ok r) :
    (∀ k, k ∈ dictKeys r → ∃ k0, k0 ∈ dictKeys d ∧ k = stripKeyTop k0) ∧
    (∀ s : String, stripKeyTop (.str s) = .str (afterFirstRBrace s)) ∧
    (∀ s : String, normalizeValueE (.str s) = .ok (.str s)) := by
  refine ⟨?_, fun _ => rfl, fun _ => rfl⟩
  intro k hk
  unfold normalizeMetadataDictE at h
  cases hes : normalizeMetaEntriesE d with
  | error e => rw [hes] at h; cases h
  | ok es =>
    rw [hes] at h
    have hy : insertsPy .dnil es = r := by injection h
    subst hy
    rcases insertsPy_keys es .dnil k hk with h2 | h2
    · simp [dictKeys] at h2
    · rw [metaEntries_keys d es hes] at h2
      obtain ⟨k0, hk0, heq⟩ := List.mem_map.mp h2
      exact ⟨k0, hk0, heq.symm⟩

theorem dict_key_namespace_amended_witness :
    (∀ k, k ∈ dictKeys (RVDict.dcons (.str "x") (.int 2) .dnil) →
      ∃ k0, k0 ∈ dictKeys (RVDict.dcons (.str "\x7ba\x7dx") (.int 1)
        (.dcons (.str "\x7bb\x7dx") (.int 2) .dnil)) ∧ k = stripKeyTop k0) ∧
    (∀ s : String, stripKeyTop (.str s) = .str (afterFirstRBrace s)) ∧
    (∀ s : String, normalizeValueE (.str s) = .ok (.str s)) :=
  dict_key_namespace_amended
    (.dcons (.str "\x7ba\x7dx") (.int 1) (.dcons (.str "\x7bb\x7dx") (.int 2) .dnil))
    (.dcons (.str "x") (.int 2) .dnil) rfl

end PhotoMeta
